import Mathlib

/-!
Verification development for `src/base-parallel.c` of pbatard/base-parallel.

The program is shallow-embedded:
* `popcnt64` and `SetThreadAffinity` model the affinity planner
  (source lines 70-113); machine words are `Nat` with explicit `% 2 ^ 64`
  where the C code computes modulo 2^64.
* `workerRun` models `ParallelTaskThread` (lines 116-146) as a function from
  an oracle of event outcomes to an exit status and a trace of actions.
* `controlRun` models `ControlThread` (lines 148-234) likewise.
* `mainRun` models `main_utf8` (lines 251-283).
-/

namespace BaseParallel

/-! ### Generic facts about bit fields of natural numbers -/

/-- Bits of `a + 2 ^ k * b` split at position `k` when `a < 2 ^ k`. -/
theorem testBit_add_mul_two_pow (k a b i : Nat) (ha : a < 2 ^ k) :
    (a + 2 ^ k * b).testBit i = if i < k then a.testBit i else b.testBit (i - k) := by
  rcases Nat.lt_or_ge i k with h | h
  · have e1 : 2 ^ k * b = 2 ^ i * (2 * (2 ^ (k - i - 1) * b)) := by
      have h2 : (2 : Nat) * 2 ^ (k - i - 1) = 2 ^ (k - i) := by
        rw [← pow_succ']
        congr 1
        omega
      calc 2 ^ k * b = 2 ^ i * 2 ^ (k - i) * b := by rw [← pow_add]; congr 2; omega
        _ = 2 ^ i * (2 * (2 ^ (k - i - 1) * b)) := by rw [← h2]; ring
    rw [if_pos h, Nat.testBit_to_div_mod, Nat.testBit_to_div_mod, e1,
      Nat.add_mul_div_left _ _ (Nat.two_pow_pos i), Nat.add_mul_mod_self_left]
  · have e1 : (2 : Nat) ^ i = 2 ^ k * 2 ^ (i - k) := by
      rw [← pow_add]
      congr 1
      omega
    rw [if_neg (by omega), Nat.testBit_to_div_mod, Nat.testBit_to_div_mod, e1,
      ← Nat.div_div_eq_div_mul, Nat.add_mul_div_left _ _ (Nat.two_pow_pos k),
      Nat.div_eq_of_lt ha, Nat.zero_add]

/-- Bitwise and distributes over a split at bit `k`. -/
theorem land_add_mul_two_pow (k a b c d : Nat) (ha : a < 2 ^ k) (hc : c < 2 ^ k) :
    (a + 2 ^ k * b) &&& (c + 2 ^ k * d) = (a &&& c) + 2 ^ k * (b &&& d) := by
  apply Nat.eq_of_testBit_eq
  intro i
  have hac : a &&& c < 2 ^ k := Nat.and_lt_two_pow a hc
  rw [Nat.testBit_and, testBit_add_mul_two_pow k a b i ha,
    testBit_add_mul_two_pow k c d i hc, testBit_add_mul_two_pow k _ _ i hac]
  by_cases h : i < k <;> simp [h, Nat.testBit_and]

/-- Bitwise and with a mask whose low `k` bits are clear. -/
theorem land_mul_two_pow (k x y : Nat) :
    x &&& 2 ^ k * y = 2 ^ k * ((x >>> k) &&& y) := by
  apply Nat.eq_of_testBit_eq
  intro i
  have h0 : (0 : Nat) < 2 ^ k := Nat.two_pow_pos k
  have e1 : 2 ^ k * y = 0 + 2 ^ k * y := by omega
  have e2 : 2 ^ k * ((x >>> k) &&& y) = 0 + 2 ^ k * ((x >>> k) &&& y) := by omega
  rw [Nat.testBit_and, e1, e2, testBit_add_mul_two_pow k 0 y i h0,
    testBit_add_mul_two_pow k 0 _ i h0]
  by_cases h : i < k
  · simp [h]
  · have e3 : k + (i - k) = i := by omega
    simp [h, Nat.testBit_and, Nat.testBit_shiftRight, e3]

/-- Shifting `a + 2 ^ w * b` right by `w` drops the low field `a`. -/
theorem shiftRight_add_mul_two_pow (w a b : Nat) (ha : a < 2 ^ w) :
    (a + 2 ^ w * b) >>> w = b := by
  rw [Nat.shiftRight_eq_div_pow, Nat.add_mul_div_left _ _ (Nat.two_pow_pos w),
    Nat.div_eq_of_lt ha, Nat.zero_add]

/-! ### Field lists: a word viewed as a list of `w`-bit digits -/

/-- Value of a list of `w`-bit fields, least significant first. -/
def fields (w : Nat) : List Nat → Nat
  | [] => 0
  | d :: ds => d + 2 ^ w * fields w ds

/-- Adjacent pairs of a list are summed, as one SWAR step does. -/
def pairs : List Nat → List Nat
  | d0 :: d1 :: ds => (d0 + d1) :: pairs ds
  | ds => ds

/-- The alternating mask of `t` chunks: `w` one-bits then `w` zero-bits, repeated. -/
def altMask (w : Nat) : Nat → Nat
  | 0 => 0
  | t + 1 => (2 ^ w - 1) + 2 ^ (2 * w) * altMask w t

/-- The `k` low bits of `u`, least significant first. -/
def natBits : Nat → Nat → List Nat
  | 0, _ => []
  | k + 1, u => (u % 2) :: natBits k (u / 2)

theorem fields_lt (w : Nat) (ds : List Nat) (hd : ∀ d ∈ ds, d < 2 ^ w) :
    fields w ds < 2 ^ (w * ds.length) := by
  induction ds with
  | nil => simp [fields]
  | cons d ds ih =>
    have hd0 : d < 2 ^ w := hd d (by simp)
    have hF : fields w ds < 2 ^ (w * ds.length) := ih fun x hx => hd x (by simp [hx])
    have e1 : (2 : Nat) ^ (w * (d :: ds).length) = 2 ^ w * 2 ^ (w * ds.length) := by
      rw [← pow_add]
      congr 1
      simp [List.length_cons]
      ring
    calc fields w (d :: ds) = d + 2 ^ w * fields w ds := rfl
      _ < 2 ^ w * (fields w ds + 1) := by rw [Nat.mul_add, Nat.mul_one]; omega
      _ ≤ 2 ^ w * 2 ^ (w * ds.length) := by
          exact Nat.mul_le_mul_left _ (by omega)
      _ = 2 ^ (w * (d :: ds).length) := e1.symm

theorem natBits_length (k : Nat) : ∀ u, (natBits k u).length = k := by
  induction k with
  | zero => intro u; rfl
  | succ k ih => intro u; simp [natBits, ih]

theorem natBits_lt (k : Nat) : ∀ u, ∀ d ∈ natBits k u, d < 2 ^ 1 := by
  induction k with
  | zero => intro u d hd; simp [natBits] at hd
  | succ k ih =>
    intro u d hd
    simp only [natBits, List.mem_cons] at hd
    rcases hd with h | h
    · subst h; have := Nat.mod_lt u (show 0 < 2 by omega); omega
    · exact ih _ d h

theorem fields_one_natBits (k : Nat) : ∀ u, u < 2 ^ k → fields 1 (natBits k u) = u := by
  induction k with
  | zero => intro u hu; interval_cases u; rfl
  | succ k ih =>
    intro u hu
    have hdiv : u / 2 < 2 ^ k := by
      apply Nat.div_lt_of_lt_mul
      rw [pow_succ] at hu
      omega
    simp only [natBits, fields, ih (u / 2) hdiv]
    omega

theorem pairs_length (t : Nat) : ∀ ds : List Nat, ds.length = 2 * t → (pairs ds).length = t := by
  induction t with
  | zero =>
    intro ds h
    have : ds = [] := List.length_eq_zero.mp (by omega)
    subst this
    rfl
  | succ t ih =>
    intro ds h
    rcases ds with _ | ⟨d0, _ | ⟨d1, ds'⟩⟩
    · simp at h
    · simp at h; omega
    · have h' : ds'.length = 2 * t := by simp at h; omega
      simp [pairs, ih ds' h']

theorem pairs_lt (w : Nat) (hw : 1 ≤ w) (t : Nat) :
    ∀ ds : List Nat, ds.length = 2 * t → (∀ d ∈ ds, d < 2 ^ w) →
    ∀ d ∈ pairs ds, d < 2 ^ (2 * w) := by
  induction t with
  | zero =>
    intro ds h _
    have : ds = [] := List.length_eq_zero.mp (by omega)
    subst this
    intro d hd
    simp [pairs] at hd
  | succ t ih =>
    intro ds h hd
    rcases ds with _ | ⟨d0, _ | ⟨d1, ds'⟩⟩
    · simp at h
    · simp at h; omega
    · have h' : ds'.length = 2 * t := by simp at h; omega
      have hpow : 2 ^ (w + 1) ≤ 2 ^ (2 * w) := Nat.pow_le_pow_right (by omega) (by omega)
      intro d hdm
      simp only [pairs, List.mem_cons] at hdm
      rcases hdm with hh | hh
      · have h0 : d0 < 2 ^ w := hd d0 (by simp)
        have h1 : d1 < 2 ^ w := hd d1 (by simp)
        have : d0 + d1 < 2 ^ (w + 1) := by rw [pow_succ]; omega
        omega
      · exact ih ds' h' (fun x hx => hd x (by simp [hx])) d hh

theorem pairs_sum (t : Nat) : ∀ ds : List Nat, ds.length = 2 * t →
    (pairs ds).sum = ds.sum := by
  induction t with
  | zero =>
    intro ds h
    have : ds = [] := List.length_eq_zero.mp (by omega)
    subst this
    rfl
  | succ t ih =>
    intro ds h
    rcases ds with _ | ⟨d0, _ | ⟨d1, ds'⟩⟩
    · simp at h
    · simp at h; omega
    · have h' : ds'.length = 2 * t := by simp at h; omega
      simp [pairs, ih ds' h']
      omega

theorem natBits_sum_le (k : Nat) : ∀ u, (natBits k u).sum ≤ k := by
  induction k with
  | zero => intro u; simp [natBits]
  | succ k ih =>
    intro u
    have := ih (u / 2)
    have : u % 2 < 2 := Nat.mod_lt u (by omega)
    simp only [natBits, List.sum_cons]
    have := ih (u / 2)
    omega

/-- One SWAR step acts chunkwise: masked value plus masked shifted value equals
the word whose `2 * w`-bit fields are the sums of adjacent `w`-bit fields. -/
theorem swarStep (w : Nat) (hw : 1 ≤ w) (t : Nat) :
    ∀ ds : List Nat, ds.length = 2 * t → (∀ d ∈ ds, d < 2 ^ w) →
    (fields w ds &&& altMask w t) + ((fields w ds >>> w) &&& altMask w t)
      = fields (2 * w) (pairs ds) := by
  induction t with
  | zero =>
    intro ds hlen _
    have : ds = [] := List.length_eq_zero.mp (by omega)
    subst this
    simp [fields, altMask, pairs]
  | succ t ih =>
    intro ds hlen hd
    rcases ds with _ | ⟨d0, _ | ⟨d1, ds'⟩⟩
    · simp at hlen
    · simp at hlen; omega
    · have hlen' : ds'.length = 2 * t := by simp at hlen; omega
      have hd0 : d0 < 2 ^ w := hd d0 (by simp)
      have hd1 : d1 < 2 ^ w := hd d1 (by simp)
      have hds' : ∀ d ∈ ds', d < 2 ^ w := fun x hx => hd x (by simp [hx])
      have hpow : (2 : Nat) ^ (2 * w) = 2 ^ w * 2 ^ w := by
        rw [two_mul, pow_add]
      have hlow : d0 + 2 ^ w * d1 < 2 ^ (2 * w) := by
        have h1 : 2 ^ w * (d1 + 1) ≤ 2 ^ w * 2 ^ w :=
          Nat.mul_le_mul_left _ (by omega)
        rw [Nat.mul_add, Nat.mul_one] at h1
        omega
      have hmlow : (2 : Nat) ^ w - 1 < 2 ^ (2 * w) := by
        have h1 : (2 : Nat) ^ w ≤ 2 ^ (2 * w) := Nat.pow_le_pow_right (by omega) (by omega)
        have h2 : (0 : Nat) < 2 ^ w := Nat.two_pow_pos w
        omega
      have hF : fields w (d0 :: d1 :: ds') = (d0 + 2 ^ w * d1) + 2 ^ (2 * w) * fields w ds' := by
        simp only [fields, hpow]
        ring
      have hA : fields w (d0 :: d1 :: ds') &&& altMask w (t + 1)
          = d0 + 2 ^ (2 * w) * (fields w ds' &&& altMask w t) := by
        rw [hF, show altMask w (t + 1) = (2 ^ w - 1) + 2 ^ (2 * w) * altMask w t from rfl,
          land_add_mul_two_pow (2 * w) _ _ _ _ hlow hmlow,
          Nat.and_pow_two_sub_one_eq_mod, Nat.add_mul_mod_self_left,
          Nat.mod_eq_of_lt hd0]
      have hShift : fields w (d0 :: d1 :: ds') >>> w = d1 + 2 ^ w * fields w ds' := by
        have : fields w (d0 :: d1 :: ds') = d0 + 2 ^ w * (d1 + 2 ^ w * fields w ds') := rfl
        rw [this, shiftRight_add_mul_two_pow w d0 _ hd0]
      have hB : (fields w (d0 :: d1 :: ds') >>> w) &&& altMask w (t + 1)
          = d1 + 2 ^ (2 * w) * ((fields w ds' >>> w) &&& altMask w t) := by
        rw [hShift, show altMask w (t + 1) = (2 ^ w - 1) + 2 ^ (2 * w) * altMask w t from rfl,
          show (2 ^ w - 1) + 2 ^ (2 * w) * altMask w t
            = (2 ^ w - 1) + 2 ^ w * (2 ^ w * altMask w t) by rw [hpow]; ring,
          land_add_mul_two_pow w _ _ _ _ hd1 (by have := Nat.two_pow_pos w; omega),
          Nat.and_pow_two_sub_one_of_lt_two_pow hd1,
          land_mul_two_pow, hpow]
        ring
      rw [hA, hB, show pairs (d0 :: d1 :: ds') = (d0 + d1) :: pairs ds' from rfl,
        show fields (2 * w) ((d0 + d1) :: pairs ds')
          = (d0 + d1) + 2 ^ (2 * w) * fields (2 * w) (pairs ds') from rfl,
        ← ih ds' hlen' hds']
      ring

/-! ### The planner's population count (source lines 70-79) -/

/-- Model of `popcnt64`: the six SWAR reduction steps on a 64-bit word,
each addition taken modulo 2^64 as `uint64_t` arithmetic does, with the final
cast to `uint8_t` modelled by `% 256`. -/
def popcnt64 (u : Nat) : Nat :=
  let u1 := ((u &&& 0x5555555555555555) + ((u >>> 1) &&& 0x5555555555555555)) % 2 ^ 64
  let u2 := ((u1 &&& 0x3333333333333333) + ((u1 >>> 2) &&& 0x3333333333333333)) % 2 ^ 64
  let u3 := ((u2 &&& 0x0f0f0f0f0f0f0f0f) + ((u2 >>> 4) &&& 0x0f0f0f0f0f0f0f0f)) % 2 ^ 64
  let u4 := ((u3 &&& 0x00ff00ff00ff00ff) + ((u3 >>> 8) &&& 0x00ff00ff00ff00ff)) % 2 ^ 64
  let u5 := ((u4 &&& 0x0000ffff0000ffff) + ((u4 >>> 16) &&& 0x0000ffff0000ffff)) % 2 ^ 64
  let u6 := ((u5 &&& 0x00000000ffffffff) + ((u5 >>> 32) &&& 0x00000000ffffffff)) % 2 ^ 64
  u6 % 256

/-- Indices of the set bits of a 64-bit affinity word, in ascending order. -/
def bitIndices (a : Nat) : List Nat :=
  (List.range 64).filter fun i => a.testBit i

/-- Number of usable logical processors reported by an affinity word:
the number of set bits. -/
def usableCores (a : Nat) : Nat :=
  (bitIndices a).length

theorem natBits_sum_eq (k : Nat) :
    ∀ a, (natBits k a).sum = ((List.range k).filter fun i => a.testBit i).length := by
  induction k with
  | zero => intro a; rfl
  | succ k ih =>
    intro a
    rw [List.range_succ_eq_map]
    rw [List.filter_cons]
    have hmap : ((List.range k).map Nat.succ).filter (fun i => a.testBit i)
        = ((List.range k).filter fun i => (a / 2).testBit i).map Nat.succ := by
      rw [List.filter_map]
      congr 1
      apply List.filter_congr
      intro i _
      simp [Function.comp, Nat.testBit_succ]
    simp only [natBits, List.sum_cons, ih (a / 2), hmap]
    have h2 : a % 2 < 2 := Nat.mod_lt a (by omega)
    have htb := Nat.testBit_zero a
    by_cases hb : a.testBit 0
    · have hm : a % 2 = 1 := by
        rw [hb] at htb
        exact of_decide_eq_true htb.symm
      simp [hb, hm]
      omega
    · have hm : a % 2 = 0 := by
        have hf : a.testBit 0 = false := Bool.eq_false_iff.mpr hb
        rw [hf] at htb
        have := of_decide_eq_false htb.symm
        omega
      simp [hb, hm]


/-- One SWAR stage followed by the `uint64_t` reduction: the modulus is
invisible because every stage's value fits in 64 bits. -/
theorem swarStageMod (w t : Nat) (hw : 1 ≤ w) (ds : List Nat) (hlen : ds.length = 2 * t)
    (hd : ∀ d ∈ ds, d < 2 ^ w) (hle : 2 * w * t ≤ 64) :
    ((fields w ds &&& altMask w t) + ((fields w ds >>> w) &&& altMask w t)) % 2 ^ 64
      = fields (2 * w) (pairs ds) := by
  rw [swarStep w hw t ds hlen hd]
  apply Nat.mod_eq_of_lt
  have h1 : fields (2 * w) (pairs ds) < 2 ^ (2 * w * (pairs ds).length) :=
    fields_lt _ _ (pairs_lt w hw t ds hlen hd)
  rw [pairs_length t ds hlen] at h1
  exact lt_of_lt_of_le h1 (Nat.pow_le_pow_right (by omega) hle)

/-- Correctness of the SWAR population count of source lines 70-79: for a
64-bit word it returns the number of set bits, i.e. the usable core count. -/
theorem popcnt64_eq_usableCores (a : Nat) (ha : a < 2 ^ 64) :
    popcnt64 a = usableCores a := by
  have hm1 : altMask 1 32 = 0x5555555555555555 := by decide
  have hm2 : altMask 2 16 = 0x3333333333333333 := by decide
  have hm3 : altMask 4 8 = 0x0f0f0f0f0f0f0f0f := by decide
  have hm4 : altMask 8 4 = 0x00ff00ff00ff00ff := by decide
  have hm5 : altMask 16 2 = 0x0000ffff0000ffff := by decide
  have hm6 : altMask 32 1 = 0x00000000ffffffff := by decide
  have l0 : (natBits 64 a).length = 2 * 32 := by rw [natBits_length]
  have b0 : ∀ d ∈ natBits 64 a, d < 2 ^ 1 := natBits_lt 64 a
  have f0 : fields 1 (natBits 64 a) = a := fields_one_natBits 64 a ha
  have s1 := swarStageMod 1 32 (by omega) (natBits 64 a) l0 b0 (by omega)
  rw [f0, hm1] at s1
  have l1 : (pairs (natBits 64 a)).length = 2 * 16 := by
    rw [pairs_length 32 (natBits 64 a) l0]
  have b1 : ∀ d ∈ pairs (natBits 64 a), d < 2 ^ 2 := by
    have := pairs_lt 1 (by omega) 32 (natBits 64 a) l0 b0
    simpa using this
  have s2 := swarStageMod 2 16 (by omega) (pairs (natBits 64 a)) l1 b1 (by omega)
  rw [hm2] at s2
  have l2 : (pairs (pairs (natBits 64 a))).length = 2 * 8 := by
    rw [pairs_length 16 _ l1]
  have b2 : ∀ d ∈ pairs (pairs (natBits 64 a)), d < 2 ^ 4 := by
    have := pairs_lt 2 (by omega) 16 _ l1 b1
    simpa using this
  have s3 := swarStageMod 4 8 (by omega) _ l2 b2 (by omega)
  rw [hm3] at s3
  have l3 : (pairs (pairs (pairs (natBits 64 a)))).length = 2 * 4 := by
    rw [pairs_length 8 _ l2]
  have b3 : ∀ d ∈ pairs (pairs (pairs (natBits 64 a))), d < 2 ^ 8 := by
    have := pairs_lt 4 (by omega) 8 _ l2 b2
    simpa using this
  have s4 := swarStageMod 8 4 (by omega) _ l3 b3 (by omega)
  rw [hm4] at s4
  have l4 : (pairs (pairs (pairs (pairs (natBits 64 a))))).length = 2 * 2 := by
    rw [pairs_length 4 _ l3]
  have b4 : ∀ d ∈ pairs (pairs (pairs (pairs (natBits 64 a)))), d < 2 ^ 16 := by
    have := pairs_lt 8 (by omega) 4 _ l3 b3
    simpa using this
  have s5 := swarStageMod 16 2 (by omega) _ l4 b4 (by omega)
  rw [hm5] at s5
  have l5 : (pairs (pairs (pairs (pairs (pairs (natBits 64 a)))))).length = 2 * 1 := by
    rw [pairs_length 2 _ l4]
  have b5 : ∀ d ∈ pairs (pairs (pairs (pairs (pairs (natBits 64 a))))), d < 2 ^ 32 := by
    have := pairs_lt 16 (by omega) 2 _ l4 b4
    simpa using this
  have s6 := swarStageMod 32 1 (by omega) _ l5 b5 (by omega)
  rw [hm6] at s6
  have l6 : (pairs (pairs (pairs (pairs (pairs (pairs (natBits 64 a))))))).length = 1 := by
    rw [pairs_length 1 _ l5]
  have hsum : (pairs (pairs (pairs (pairs (pairs (pairs (natBits 64 a))))))).sum
      = (natBits 64 a).sum := by
    rw [pairs_sum 1 _ l5, pairs_sum 2 _ l4, pairs_sum 4 _ l3, pairs_sum 8 _ l2,
      pairs_sum 16 _ l1, pairs_sum 32 _ l0]
  obtain ⟨d, hd6⟩ := List.length_eq_one.mp l6
  have hfd : fields 64 (pairs (pairs (pairs (pairs (pairs (pairs (natBits 64 a))))))) = d := by
    rw [hd6]
    simp [fields]
  have hdval : d = (natBits 64 a).sum := by
    rw [← hsum, hd6]
    simp
  have hdle : d ≤ 64 := by
    rw [hdval]
    exact natBits_sum_le 64 a
  simp only [popcnt64]
  rw [s1, s2, s3, s4, s5, s6, show (2 : Nat) * 32 = 64 from rfl, hfd,
    Nat.mod_eq_of_lt (by omega), hdval, natBits_sum_eq 64 a]
  rfl

/-! ### The affinity planner (`SetThreadAffinity`, source lines 87-113) -/

/-- Value of `-1LL * affinity` in `uint64_t` arithmetic (source lines 109-110). -/
def negMod64 (a : Nat) : Nat :=
  ((2 ^ 64 - 1) * a) % 2 ^ 64

/-- Value of `affinity & (-1LL * affinity)`: the lowest set bit of `affinity`. -/
def lowestBitMask (a : Nat) : Nat :=
  a &&& negMod64 a

/-- The mask-extraction loop of source lines 107-111. Each `thread_affinity[i]`
starts at 0 from `calloc`, so the `|=` there accumulates onto 0. -/
def affinityLoop : Nat → Nat → List Nat
  | 0, _ => []
  | n + 1, a => (0 ||| lowestBitMask a) :: affinityLoop n (a ^^^ lowestBitMask a)

/-- Observable outputs of `SetThreadAffinity`: its return value and the two
globals `num_threads` and `thread_affinity` it writes. -/
structure PlannerResult where
  ok : Bool
  num_threads : Nat
  thread_affinity : Option (List Nat)
  deriving DecidableEq

/-- Model of `SetThreadAffinity` (source lines 87-113). `getAffinity` is the
word `GetProcessAffinityMask` reports (`none`: that call fails), `spare` the
compile-time `SPARE_THREADS`, `allocOk` whether `calloc` succeeds. -/
def SetThreadAffinity (getAffinity : Option Nat) (spare : Nat) (allocOk : Bool) :
    PlannerResult :=
  match getAffinity with
  | none => { ok := false, num_threads := 0, thread_affinity := none }
  | some affinity =>
    let n := popcnt64 affinity
    if n ≤ spare then
      { ok := false, num_threads := n, thread_affinity := none }
    else if allocOk = false then
      { ok := false, num_threads := n - spare, thread_affinity := none }
    else
      { ok := true, num_threads := n - spare,
        thread_affinity := some (affinityLoop (n - spare) affinity) }

/-- The shipped configuration constant `SPARE_THREADS` (source line 50). -/
def SPARE_THREADS : Nat := 0

theorem negMod64_eq (a : Nat) (h0 : 0 < a) (ha : a < 2 ^ 64) :
    negMod64 a = 2 ^ 64 - a := by
  have e1 : (2 ^ 64 - 1) * a = 2 ^ 64 * (a - 1) + (2 ^ 64 - a) := by
    omega
  rw [negMod64, e1, Nat.mul_add_mod]
  exact Nat.mod_eq_of_lt (by omega)

theorem two_mul_land (x y : Nat) : (2 * x) &&& (2 * y) = 2 * (x &&& y) := by
  apply Nat.eq_of_testBit_eq
  intro i
  match i with
  | 0 =>
    simp [Nat.testBit_and, Nat.testBit_zero, Nat.mul_mod_right]
  | j + 1 =>
    have hx : (2 * x) / 2 = x := by omega
    have hxy : (2 * (x &&& y)) / 2 = x &&& y := by omega
    rw [Nat.testBit_and, Nat.testBit_succ, Nat.testBit_succ, Nat.testBit_succ, hx, hxy,
      show (2 * y) / 2 = y by omega, Nat.testBit_and]

theorem two_pow_land_two_pow (i j : Nat) (h : i ≠ j) : 2 ^ i &&& 2 ^ j = 0 := by
  apply Nat.eq_of_testBit_eq
  intro m
  rw [Nat.testBit_and, Nat.zero_testBit]
  by_cases hi : i = m
  · subst hi
    rw [Nat.testBit_two_pow_of_ne (fun hh => h hh.symm)]
    simp
  · rw [Nat.testBit_two_pow_of_ne hi]
    simp

/-- The classic `a & -a` identity: isolating the lowest set bit, in width `k`. -/
theorem land_neg_self (a : Nat) : ∀ k t : Nat, 0 < a → a < 2 ^ k →
    a.testBit t = true → (∀ j, j < t → a.testBit j = false) →
    a &&& (2 ^ k - a) = 2 ^ t := by
  induction a using Nat.strong_induction_on with
  | _ a ih =>
    intro k t ha hak htb hlow
    have hk1 : 1 ≤ k := by
      by_contra hh
      have : k = 0 := by omega
      subst this
      simp at hak
      omega
    rcases Nat.mod_two_eq_zero_or_one a with he | ho
    · -- a even: a = 2 * b, recurse on b
      have hb : a = 2 * (a / 2) := by omega
      have hbpos : 0 < a / 2 := by omega
      have ht0 : a.testBit 0 = false := by
        rw [Nat.testBit_zero]
        simp [he]
      have htpos : t ≠ 0 := by
        intro hh
        rw [hh, ht0] at htb
        simp at htb
      obtain ⟨t', rfl⟩ : ∃ t', t = t' + 1 := ⟨t - 1, by omega⟩
      have htb' : (a / 2).testBit t' = true := by
        rw [← Nat.testBit_succ]
        exact htb
      have hlow' : ∀ j, j < t' → (a / 2).testBit j = false := by
        intro j hj
        rw [← Nat.testBit_succ]
        exact hlow (j + 1) (by omega)
      have hhalf : a / 2 < 2 ^ (k - 1) := by
        have : (2 : Nat) ^ k = 2 * 2 ^ (k - 1) := by
          rw [← pow_succ']
          congr 1
          omega
        omega
      have hrec := ih (a / 2) (by omega) (k - 1) t' hbpos hhalf htb' hlow'
      have hsub : 2 ^ k - a = 2 * (2 ^ (k - 1) - a / 2) := by
        have : (2 : Nat) ^ k = 2 * 2 ^ (k - 1) := by
          rw [← pow_succ']
          congr 1
          omega
        omega
      calc a &&& (2 ^ k - a) = (2 * (a / 2)) &&& (2 * (2 ^ (k - 1) - a / 2)) := by
            rw [← hb, ← hsub]
        _ = 2 * ((a / 2) &&& (2 ^ (k - 1) - a / 2)) := two_mul_land _ _
        _ = 2 * 2 ^ t' := by rw [hrec]
        _ = 2 ^ (t' + 1) := by rw [← pow_succ']
    · -- a odd: the result is bit 0
      have ht0 : a.testBit 0 = true := by
        rw [Nat.testBit_zero]
        simp [ho]
      have ht : t = 0 := by
        by_contra hh
        have := hlow 0 (by omega)
        rw [ht0] at this
        simp at this
      subst ht
      have hksub : (2 : Nat) ^ k = 2 * 2 ^ (k - 1) := by
        rw [← pow_succ']
        congr 1
        omega
      apply Nat.eq_of_testBit_eq
      intro i
      match i with
      | 0 =>
        have hpar : (2 ^ k - a) % 2 = 1 := by omega
        rw [Nat.testBit_and, ht0, Nat.testBit_zero, Nat.testBit_zero]
        simp [hpar, ho]
      | j + 1 =>
        have hsub1 : a - 1 < 2 ^ k := by omega
        have e0 : 2 ^ k - a = 2 ^ k - ((a - 1) + 1) := by omega
        have hcompl := Nat.testBit_two_pow_sub_succ hsub1 (j + 1)
        rw [← e0] at hcompl
        have hpred : (a - 1).testBit (j + 1) = a.testBit (j + 1) := by
          rw [Nat.testBit_succ, Nat.testBit_succ]
          congr 1
          omega
        rw [Nat.testBit_and, hcompl, hpred]
        rw [Nat.testBit_two_pow_of_ne (by omega)]
        cases hab : a.testBit (j + 1) <;> simp [hab]

/-- Removing the unique distinguishing element of a filtered range. -/
theorem filter_range_eq_cons (n : Nat) (p q : Nat → Bool) :
    ∀ t : Nat, t < n → p t = true → (∀ j, j < t → p j = false) → q t = false →
    (∀ j, j ≠ t → q j = p j) →
    (List.range n).filter p = t :: (List.range n).filter q := by
  induction n with
  | zero => intro t ht; omega
  | succ n ih =>
    intro t ht hp hlow hq hagree
    rcases Nat.lt_or_ge t n with hlt | hge
    · rw [List.range_succ, List.filter_append, List.filter_append,
        ih t hlt hp hlow hq hagree]
      have : q n = p n := hagree n (by omega)
      simp [List.filter_cons, this]
    · have htn : t = n := by omega
      subst htn
      have hpempty : (List.range t).filter p = [] := by
        apply List.filter_eq_nil.mpr
        intro j hj
        simp only [List.mem_range] at hj
        simp [hlow j hj]
      have hqempty : (List.range t).filter q = [] := by
        apply List.filter_eq_nil.mpr
        intro j hj
        simp only [List.mem_range] at hj
        rw [hagree j (by omega)]
        simp [hlow j hj]
      rw [List.range_succ, List.filter_append, List.filter_append, hpempty, hqempty]
      simp [List.filter_cons, hp, hq]

/-- Clearing the lowest set bit removes the head of `bitIndices`. -/
theorem bitIndices_eq_cons (a t : Nat) (ht : t < 64) (htb : a.testBit t = true)
    (hlow : ∀ j, j < t → a.testBit j = false) :
    bitIndices a = t :: bitIndices (a ^^^ 2 ^ t) := by
  apply filter_range_eq_cons 64 _ _ t ht htb hlow
  · rw [Nat.testBit_xor, htb, Nat.testBit_two_pow_self]
    rfl
  · intro j hj
    rw [Nat.testBit_xor, Nat.testBit_two_pow_of_ne (fun hh => hj hh.symm)]
    simp

theorem bitIndices_sorted (a : Nat) : (bitIndices a).Pairwise (· < ·) :=
  List.Pairwise.filter _ (List.pairwise_lt_range 64)

theorem bitIndices_zero : bitIndices 0 = [] := by
  apply List.filter_eq_nil.mpr
  intro j _
  simp

/-- The planner loop produces exactly the `n` lowest set bits of `a`,
in ascending order, as powers of two. -/
theorem affinityLoop_eq : ∀ (n a : Nat), a < 2 ^ 64 → n ≤ (bitIndices a).length →
    affinityLoop n a = ((bitIndices a).take n).map fun t => 2 ^ t := by
  intro n
  induction n with
  | zero => intro a _ _; rfl
  | succ n ih =>
    intro a ha hn
    have hne : a ≠ 0 := by
      intro hh
      subst hh
      rw [bitIndices_zero] at hn
      simp at hn
    have hex : ∃ i, a.testBit i := Nat.ne_zero_implies_bit_true hne
    set t := Nat.find hex with htdef
    have htb : a.testBit t = true := Nat.find_spec hex
    have hlow : ∀ j, j < t → a.testBit j = false := by
      intro j hj
      have := Nat.find_min hex hj
      simpa using this
    have hge : 2 ^ t ≤ a := Nat.testBit_implies_ge htb
    have ht64 : t < 64 := by
      have h1 : (2 : Nat) ^ t < 2 ^ 64 := by omega
      exact (Nat.pow_lt_pow_iff_right (by omega)).mp h1
    have hmask : lowestBitMask a = 2 ^ t := by
      rw [lowestBitMask, negMod64_eq a (by omega) ha]
      exact land_neg_self a 64 t (by omega) ha htb hlow
    have hcons := bitIndices_eq_cons a t ht64 htb hlow
    have ha' : a ^^^ 2 ^ t < 2 ^ 64 :=
      Nat.xor_lt_two_pow ha (by omega)
    have hn' : n ≤ (bitIndices (a ^^^ 2 ^ t)).length := by
      rw [hcons] at hn
      simpa using hn
    show (0 ||| lowestBitMask a) :: affinityLoop n (a ^^^ lowestBitMask a) = _
    rw [Nat.zero_or, hmask, ih (a ^^^ 2 ^ t) ha' hn', hcons]
    rfl

/-- C1: for usable-core count `c` and spare count `s` with `c > s`, the planner
`SetThreadAffinity` succeeds and produces exactly `c - s` affinity masks,
pairwise disjoint, each a single set bit of the original affinity word, in
ascending bit order: mask `i` is the `i`-th lowest set bit of the word. -/
theorem C1_planner_spreads_affinity (affinity spare : Nat) (ha : affinity < 2 ^ 64)
    (hcs : spare < usableCores affinity) :
    ∃ plan : List Nat,
      SetThreadAffinity (some affinity) spare true =
        { ok := true, num_threads := usableCores affinity - spare,
          thread_affinity := some plan } ∧
      plan = ((bitIndices affinity).take (usableCores affinity - spare)).map
          (fun t => 2 ^ t) ∧
      plan.length = usableCores affinity - spare ∧
      List.Pairwise (fun x y => x &&& y = 0) plan ∧
      (∀ m ∈ plan, ∃ j, m = 2 ^ j ∧ affinity.testBit j = true) := by
  have hpc := popcnt64_eq_usableCores affinity ha
  have hnot : ¬ popcnt64 affinity ≤ spare := by omega
  have hlen : (bitIndices affinity).length = usableCores affinity := rfl
  have hloop := affinityLoop_eq (usableCores affinity - spare) affinity ha (by omega)
  refine ⟨affinityLoop (usableCores affinity - spare) affinity, ?_, hloop, ?_, ?_, ?_⟩
  · simp only [SetThreadAffinity]
    rw [if_neg hnot, hpc]
    simp
  · rw [hloop]
    simp only [List.length_map, List.length_take]
    omega
  · rw [hloop]
    apply List.pairwise_map.mpr
    have hsort : ((bitIndices affinity).take (usableCores affinity - spare)).Pairwise (· < ·) :=
      List.Pairwise.sublist (List.take_sublist _ _) (bitIndices_sorted affinity)
    exact hsort.imp fun hlt => two_pow_land_two_pow _ _ (by omega)
  · intro m hm
    rw [hloop] at hm
    obtain ⟨j, hj, rfl⟩ := List.mem_map.mp hm
    have hj2 : j ∈ bitIndices affinity := List.mem_of_mem_take hj
    have := List.mem_filter.mp hj2
    exact ⟨j, rfl, this.2⟩

/-- C1 witness: the concrete affinity word `5 = 0b101` with no spare threads
yields the plan `[1, 4]`. -/
theorem C1_planner_spreads_affinity_witness :
    ∃ plan : List Nat,
      SetThreadAffinity (some 5) 0 true =
        { ok := true, num_threads := usableCores 5 - 0,
          thread_affinity := some plan } ∧
      plan = ((bitIndices 5).take (usableCores 5 - 0)).map (fun t => 2 ^ t) ∧
      plan.length = usableCores 5 - 0 ∧
      List.Pairwise (fun x y => x &&& y = 0) plan ∧
      (∀ m ∈ plan, ∃ j, m = 2 ^ j ∧ (5 : Nat).testBit j = true) :=
  C1_planner_spreads_affinity 5 0 (by norm_num) (by decide)

/-- C4 counterexample: with one usable core and one spare thread the call does
fail, but the observable planner output `num_threads` is left set to 1 (the
code assigns `num_threads = popcnt64(affinity)` before the `<= SPARE_THREADS`
check and does not reset it on that early return), contradicting the claim
that no observable planner output is left set. -/
theorem C4_counterexample :
    (SetThreadAffinity (some 1) 1 true).ok = false ∧
    (SetThreadAffinity (some 1) 1 true).num_threads ≠ 0 := by
  decide

/-- C4 amended: for `c ≤ s` the planner fails and `thread_affinity` stays
unset, but `num_threads` is left equal to the usable-core count `c` (so it is
0 only when the affinity word is 0; in the shipped configuration
`SPARE_THREADS = 0` the failing case forces `c = 0` and then no nonzero state
remains). -/
theorem C4_fail_leaves_core_count (a s : Nat) (ha : a < 2 ^ 64)
    (hcs : usableCores a ≤ s) :
    SetThreadAffinity (some a) s true =
      { ok := false, num_threads := usableCores a, thread_affinity := none } := by
  have hpc := popcnt64_eq_usableCores a ha
  simp only [SetThreadAffinity]
  rw [if_pos (by omega), hpc]

/-- C4 amended-claim witness at the counterexample input. -/
theorem C4_fail_leaves_core_count_witness :
    SetThreadAffinity (some 1) 1 true =
      { ok := false, num_threads := usableCores 1, thread_affinity := none } :=
  C4_fail_leaves_core_count 1 1 (by norm_num) (by decide)

/-! ### Configuration constants (source lines 45-52) and the worker model -/

/-- `WAIT_TIME` (source line 47). -/
def WAIT_TIME : Nat := 15000

/-- The Windows `INFINITE` timeout value. -/
def INFINITE : Nat := 4294967295

/-- `MAX_ITERATIONS` (source line 52). -/
def MAX_ITERATIONS : Nat := 100

/-- Diagnostic lines a worker can print. -/
inductive WTag where
  | readyFail
  | dataWaitFail
  | exiting
  | received
  deriving DecidableEq

/-- Observable actions of a worker thread (`ParallelTaskThread`). -/
inductive WAct where
  | signalReady
  | waitData (timeout : Nat)
  | readSlot (v : Nat)
  | log (tag : WTag)
  | sleepMs (ms : Nat)
  deriving DecidableEq

/-- Per-iteration environment of a worker: whether `SetEvent(thread_ready[i])`
succeeds, whether the bounded wait on `data_ready[i]` returns `WAIT_OBJECT_0`,
the value read from `thread_data[i]`, and the values of the volatile
`cancel_requested` reads inside the dummy loop. -/
structure WRound where
  readyOk : Bool
  dataWaitOk : Bool
  slot : Nat
  cancel : Nat → Bool

/-- The dummy workload of source lines 141-143: up to 25 sleeps of 100 ms,
stopping early when a `cancel_requested` poll reads true. -/
def dummyLoop (cancel : Nat → Bool) : List WAct :=
  ((List.range 25).takeWhile fun j => !cancel j).map fun _ => WAct.sleepMs 100

/-- Model of `ParallelTaskThread` (source lines 116-146) run against a finite
oracle of rounds; result `none` means the oracle ran out while the loop was
still going. -/
def workerRun : List WRound → Option Nat × List WAct
  | [] => (none, [])
  | r :: rs =>
    if r.readyOk = false then
      (some 1, [WAct.signalReady, WAct.log WTag.readyFail])
    else if r.dataWaitOk = false then
      (some 1, [WAct.signalReady, WAct.waitData WAIT_TIME, WAct.log WTag.dataWaitFail])
    else if r.slot = 0 then
      (some 0, [WAct.signalReady, WAct.waitData WAIT_TIME, WAct.readSlot 0,
        WAct.log WTag.exiting])
    else
      ((workerRun rs).1,
        WAct.signalReady :: WAct.waitData WAIT_TIME :: WAct.readSlot r.slot ::
          WAct.log WTag.received :: (dummyLoop r.cancel ++ (workerRun rs).2))

/-- C5: a worker whose slot reads the sentinel 0 after a successful data-ready
wait logs one diagnostic line and returns success (exit status 0); its trace
ends at that log — it never again reads or writes its slot or signals an
event — and any further oracle input is ignored. -/
theorem C5_sentinel_terminates (pre rest : List WRound) (r : WRound)
    (hpre : ∀ q ∈ pre, q.readyOk = true ∧ q.dataWaitOk = true ∧ q.slot ≠ 0)
    (hr1 : r.readyOk = true) (hr2 : r.dataWaitOk = true) (hr0 : r.slot = 0) :
    (workerRun (pre ++ r :: rest)).1 = some 0 ∧
    workerRun (pre ++ r :: rest) = workerRun (pre ++ [r]) ∧
    ∃ tr, (workerRun (pre ++ r :: rest)).2
        = tr ++ [WAct.signalReady, WAct.waitData WAIT_TIME, WAct.readSlot 0,
            WAct.log WTag.exiting] := by
  induction pre with
  | nil =>
    refine ⟨?_, ?_, ⟨[], ?_⟩⟩ <;> simp [workerRun, hr1, hr2, hr0]
  | cons q pre ih =>
    have hq := hpre q (by simp)
    obtain ⟨h1, h2, tr, h3⟩ := ih fun x hx => hpre x (by simp [hx])
    refine ⟨?_, ?_, ?_⟩
    · simpa [workerRun, hq.1, hq.2.1, hq.2.2] using h1
    · have e : (q :: pre) ++ r :: rest = q :: (pre ++ r :: rest) := rfl
      have e2 : (q :: pre) ++ [r] = q :: (pre ++ [r]) := rfl
      rw [e, e2]
      simp only [workerRun, hq.1, hq.2.1, hq.2.2, if_neg, if_pos]
      rw [h2]
    · refine ⟨WAct.signalReady :: WAct.waitData WAIT_TIME :: WAct.readSlot q.slot ::
        WAct.log WTag.received :: (dummyLoop q.cancel ++ tr), ?_⟩
      simp only [List.cons_append, workerRun, hq.1, hq.2.1, hq.2.2]
      simp [h3]

/-- The concrete sentinel round used as the C5 witness. -/
def sentinelRound : WRound :=
  { readyOk := true, dataWaitOk := true, slot := 0, cancel := fun _ => false }

/-- C5 witness: a single sentinel round. -/
theorem C5_sentinel_terminates_witness :
    (workerRun ([] ++ sentinelRound :: [])).1 = some 0 ∧
    workerRun ([] ++ sentinelRound :: []) = workerRun ([] ++ [sentinelRound]) ∧
    ∃ tr, (workerRun ([] ++ sentinelRound :: [])).2
        = tr ++ [WAct.signalReady, WAct.waitData WAIT_TIME, WAct.readSlot 0,
            WAct.log WTag.exiting] :=
  C5_sentinel_terminates [] [] sentinelRound
    (by intro q hq; simp at hq) rfl rfl rfl

/-! ### The control thread model (`ControlThread`, source lines 148-234) -/

/-- The four per-worker arrays allocated by `ControlThread`. -/
inductive ArrName where
  | taskThread
  | dataReady
  | threadReady
  | threadData
  deriving DecidableEq

/-- Diagnostic lines the control thread can print. -/
inductive CTag where
  | allocFail
  | creating
  | eventFail
  | threadFail (i : Nat)
  | waitFail
  | signalFail (i : Nat)
  | didNotFinalize
  deriving DecidableEq

/-- Observable actions of the control thread. -/
inductive CAct where
  | log (tag : CTag)
  | createEvent (a : ArrName) (i : Nat) (ok : Bool)
  | createThread (i : Nat) (ok : Bool)
  | setPriority (i : Nat)
  | setAffinity (i mask : Nat)
  | waitMulti (count timeout : Nat) (waitAll : Bool)
  | writeSlot (i v : Nat)
  | signalData (i : Nat)
  | sleepMs (ms : Nat)
  | readArr (a : ArrName) (i : Nat)
  | terminate (i : Nat)
  | closeHandle (a : ArrName) (i : Nat)
  | freeArr (a : ArrName)
  deriving DecidableEq

/-- Environment oracle for one control-thread run: which `calloc`s succeed,
which `CreateEvent`/`CreateThread` calls succeed, the volatile
`cancel_requested` read at each iteration, the `WaitForMultipleObjects` result
at each iteration (values `>= num_threads` are failures, as the code checks),
whether `SetEvent(data_ready[i])` succeeds at each iteration, and the result
of the final join-all wait (`0` = `WAIT_OBJECT_0`). -/
structure CEnv where
  allocTask : Bool
  allocDataReady : Bool
  allocThreadReady : Bool
  allocThreadData : Bool
  createDataReady : Nat → Bool
  createThreadReady : Nat → Bool
  createThread : Nat → Bool
  cancel : Nat → Bool
  waitResult : Nat → Nat
  setDataEvent : Nat → Bool
  joinResult : Nat

/-- Result of the per-worker setup loop (source lines 167-185): success flag,
trace, and which handles are non-NULL afterwards (`dC`/`rC` the two events,
`tC` the worker threads). -/
structure SetupRes where
  ok : Bool
  trace : List CAct
  dC : Nat → Bool
  rC : Nat → Bool
  tC : Nat → Bool

/-- The setup loop of source lines 167-185 over the list of worker indices. -/
def setupGo (env : CEnv) (tal : List Nat) : List Nat → SetupRes
  | [] =>
    { ok := true, trace := [], dC := fun _ => false, rC := fun _ => false,
      tC := fun _ => false }
  | i :: is =>
    let dOk := env.createDataReady i
    let rOk := env.createThreadReady i
    let evTr := [CAct.createEvent ArrName.dataReady i dOk,
      CAct.createEvent ArrName.threadReady i rOk]
    if dOk = false ∨ rOk = false then
      { ok := false, trace := evTr ++ [CAct.log CTag.eventFail],
        dC := fun j => j == i && dOk, rC := fun j => j == i && rOk,
        tC := fun _ => false }
    else
      if env.createThread i = false then
        { ok := false,
          trace := evTr ++ [CAct.createThread i false, CAct.log (CTag.threadFail i)],
          dC := fun j => j == i, rC := fun j => j == i, tC := fun _ => false }
      else
        let rest := setupGo env tal is
        { ok := rest.ok,
          trace := evTr ++ [CAct.createThread i true, CAct.setPriority i] ++
            (if tal.getD i 0 ≠ 0 then [CAct.setAffinity i (tal.getD i 0)] else []) ++
            rest.trace,
          dC := fun j => j == i || rest.dC j,
          rC := fun j => j == i || rest.rC j,
          tC := fun j => j == i || rest.tC j }

/-- The dispatch loop of source lines 187-201. `fuel` is the number of
remaining iterations allowed by the `iteration <= MAX_ITERATIONS` bound, `it`
the current iteration number; the loop is entered with `fuel = MAX_ITERATIONS`
and `it = 1`. Returns whether the loop exited normally, plus the trace. -/
def dispatchGo (env : CEnv) (nt : Nat) : Nat → Nat → Bool × List CAct
  | 0, _ => (true, [])
  | fuel + 1, it =>
    if env.cancel it = true then (true, [])
    else
      if nt ≤ env.waitResult it then
        (false, [CAct.waitMulti nt WAIT_TIME false, CAct.log CTag.waitFail])
      else if env.setDataEvent it = false then
        (false, [CAct.waitMulti nt WAIT_TIME false,
          CAct.writeSlot (env.waitResult it) it,
          CAct.signalData (env.waitResult it), CAct.log (CTag.signalFail (env.waitResult it))])
      else
        ((dispatchGo env nt fuel (it + 1)).1,
          CAct.waitMulti nt WAIT_TIME false :: CAct.writeSlot (env.waitResult it) it ::
            CAct.signalData (env.waitResult it) :: (dispatchGo env nt fuel (it + 1)).2)

/-- The shutdown broadcast of source lines 206-209: `memset` clears every
slot, then every worker's data-ready event is signalled. -/
def broadcastTrace (nt : Nat) : List CAct :=
  ((List.range nt).map fun w => CAct.writeSlot w 0) ++
    ((List.range nt).map fun w => CAct.signalData w)

/-- The teardown block at `out:` (source lines 220-232): the loop indexes the
three handle arrays for every worker regardless of whether those arrays were
successfully allocated, terminating threads and closing events whose handles
are non-NULL, then frees all four arrays. -/
def cleanup (nt : Nat) (dC rC tC : Nat → Bool) : List CAct :=
  (((List.range nt).map fun i =>
    CAct.readArr ArrName.taskThread i ::
      ((if tC i then [CAct.terminate i] else []) ++
        (CAct.readArr ArrName.dataReady i ::
          ((if dC i then [CAct.closeHandle ArrName.dataReady i] else []) ++
            (CAct.readArr ArrName.threadReady i ::
              (if rC i then [CAct.closeHandle ArrName.threadReady i] else [])))))).join)
  ++ [CAct.freeArr ArrName.dataReady, CAct.freeArr ArrName.threadReady,
      CAct.freeArr ArrName.taskThread, CAct.freeArr ArrName.threadData]

/-- Model of `ControlThread` (source lines 148-234): exit code and trace. -/
def controlRun (nt : Nat) (ta : Option (List Nat)) (env : CEnv) : Nat × List CAct :=
  match ta with
  | none => (1, [])
  | some tal =>
    if nt = 0 then (1, [])
    else if (env.allocTask && env.allocDataReady && env.allocThreadReady &&
        env.allocThreadData) = false then
      (1, CAct.log CTag.allocFail ::
        cleanup nt (fun _ => false) (fun _ => false) (fun _ => false))
    else
      let s := setupGo env tal (List.range nt)
      if s.ok = false then
        (1, (CAct.log CTag.creating :: s.trace) ++ cleanup nt s.dC s.rC s.tC)
      else
        let d := dispatchGo env nt MAX_ITERATIONS 1
        if d.1 = false then
          (1, (CAct.log CTag.creating :: s.trace) ++ d.2 ++ cleanup nt s.dC s.rC s.tC)
        else
          let shut := CAct.sleepMs 250 :: (broadcastTrace nt ++
            [CAct.waitMulti nt WAIT_TIME true])
          if env.joinResult = 0 then
            (0, (CAct.log CTag.creating :: s.trace) ++ d.2 ++ shut ++
              cleanup nt s.dC s.rC (fun _ => false))
          else
            (1, (CAct.log CTag.creating :: s.trace) ++ d.2 ++ shut ++
              (CAct.log CTag.didNotFinalize :: cleanup nt s.dC s.rC s.tC))

/-! ### Trace predicates -/

/-- Is the action a write of the sentinel 0 into some worker slot? -/
def isZeroWrite : CAct → Bool
  | CAct.writeSlot _ 0 => true
  | _ => false

/-- No sentinel write occurs in the trace. -/
def noZeroWrite (tr : List CAct) : Bool :=
  tr.all fun a => !isZeroWrite a

/-- Is the action the join-all wait on the worker threads? -/
def isJoinWait : CAct → Bool
  | CAct.waitMulti _ _ true => true
  | _ => false

/-- Some join-all wait occurs in the trace. -/
def hasJoinWait (tr : List CAct) : Bool :=
  tr.any isJoinWait

/-- Number of slot writes of the value `v` in the trace. -/
def countWriteVal (v : Nat) (tr : List CAct) : Nat :=
  tr.countP fun a => match a with
    | CAct.writeSlot _ x => x == v
    | _ => false

/-- Number of non-sentinel slot writes in the trace. -/
def countNonZeroWrite (tr : List CAct) : Nat :=
  tr.countP fun a => match a with
    | CAct.writeSlot _ x => !(x == 0)
    | _ => false

/-- Number of sentinel writes into worker `w`'s slot. -/
def countZeroWriteTo (w : Nat) (tr : List CAct) : Nat :=
  tr.countP fun a => match a with
    | CAct.writeSlot i x => i == w && x == 0
    | _ => false

/-- Number of slot writes of any value. -/
def countWrites (tr : List CAct) : Nat :=
  tr.countP fun a => match a with
    | CAct.writeSlot _ _ => true
    | _ => false

/-- Every data-ready signal is immediately preceded by a write into the same
worker's slot. -/
def wbs : List CAct → Bool
  | [] => true
  | CAct.signalData _ :: _ => false
  | CAct.writeSlot i _ :: CAct.signalData j :: rest => i == j && wbs rest
  | _ :: rest => wbs rest

/-- Every aggregate wait in a control trace waits on `nt` objects with the
bounded timeout `WAIT_TIME`, and no other kind of blocking wait occurs. -/
def waitsBoundedC (nt : Nat) (tr : List CAct) : Bool :=
  tr.all fun a => match a with
    | CAct.waitMulti n t _ => n == nt && t == WAIT_TIME
    | _ => true

/-- Every wait in a worker trace is the bounded wait on its own data-ready
event with timeout `WAIT_TIME`. -/
def waitsBoundedW (tr : List WAct) : Bool :=
  tr.all fun a => match a with
    | WAct.waitData t => t == WAIT_TIME
    | _ => true

/-- Did the teardown loop index an array whose allocation failed
(a NULL-pointer dereference in the C code)? -/
def ubAccess (env : CEnv) (tr : List CAct) : Bool :=
  tr.any fun a => match a with
    | CAct.readArr ArrName.taskThread _ => !env.allocTask
    | CAct.readArr ArrName.dataReady _ => !env.allocDataReady
    | CAct.readArr ArrName.threadReady _ => !env.allocThreadReady
    | CAct.readArr ArrName.threadData _ => !env.allocThreadData
    | _ => false

/-! ### Dispatch loop lemmas -/

theorem dispatchGo_cancel_stops (env : CEnv) (nt fuel it : Nat)
    (h : env.cancel it = true) : dispatchGo env nt fuel it = (true, []) := by
  cases fuel with
  | zero => rfl
  | succ fuel => simp [dispatchGo, h]

theorem dispatchGo_write_range (env : CEnv) (nt : Nat) :
    ∀ fuel it i v, CAct.writeSlot i v ∈ (dispatchGo env nt fuel it).2 →
      it ≤ v ∧ v < it + fuel := by
  intro fuel
  induction fuel with
  | zero => intro it i v h; simp [dispatchGo] at h
  | succ fuel ih =>
    intro it i v h
    by_cases hc : env.cancel it = true
    · simp [dispatchGo, hc] at h
    · by_cases hw : nt ≤ env.waitResult it
      · simp [dispatchGo, hc, hw] at h
      · by_cases hs : env.setDataEvent it = false
        · simp [dispatchGo, hc, hw, hs] at h
          omega
        · simp only [dispatchGo, if_neg hc, if_neg hw, if_neg hs, List.mem_cons] at h
          rcases h with h | h | h | h
          · exact absurd h (by simp)
          · injection h with h1 h2
            omega
          · exact absurd h (by simp)
          · have := ih (it + 1) i v h
            omega

theorem dispatchGo_writes_le (env : CEnv) (nt : Nat) :
    ∀ fuel it, countWrites (dispatchGo env nt fuel it).2 ≤ fuel := by
  intro fuel
  induction fuel with
  | zero => intro it; simp [dispatchGo, countWrites]
  | succ fuel ih =>
    intro it
    by_cases hc : env.cancel it = true
    · simp [dispatchGo, hc, countWrites]
    · by_cases hw : nt ≤ env.waitResult it
      · simp [dispatchGo, hc, hw, countWrites, List.countP_cons]
      · by_cases hs : env.setDataEvent it = false
        · simp [dispatchGo, hc, hw, hs, countWrites, List.countP_cons]
        · have := ih (it + 1)
          simp only [dispatchGo, if_neg hc, if_neg hw, if_neg hs]
          simp only [countWrites] at this
          simp [countWrites, List.countP_cons]
          omega

theorem dispatchGo_wbs (env : CEnv) (nt : Nat) :
    ∀ fuel it, wbs (dispatchGo env nt fuel it).2 = true := by
  intro fuel
  induction fuel with
  | zero => intro it; rfl
  | succ fuel ih =>
    intro it
    by_cases hc : env.cancel it = true
    · simp [dispatchGo, hc, wbs]
    · by_cases hw : nt ≤ env.waitResult it
      · simp [dispatchGo, hc, hw, wbs]
      · by_cases hs : env.setDataEvent it = false
        · simp [dispatchGo, hc, hw, hs, wbs]
        · simp only [dispatchGo, if_neg hc, if_neg hw, if_neg hs]
          show wbs (CAct.waitMulti nt WAIT_TIME false :: CAct.writeSlot _ it ::
            CAct.signalData _ :: (dispatchGo env nt fuel (it + 1)).2) = true
          rw [show wbs (CAct.waitMulti nt WAIT_TIME false :: CAct.writeSlot (env.waitResult it) it ::
            CAct.signalData (env.waitResult it) :: (dispatchGo env nt fuel (it + 1)).2)
              = ((env.waitResult it == env.waitResult it) &&
                wbs (dispatchGo env nt fuel (it + 1)).2) from rfl]
          simp [ih (it + 1)]

theorem dispatchGo_noJoin (env : CEnv) (nt : Nat) :
    ∀ fuel it, hasJoinWait (dispatchGo env nt fuel it).2 = false := by
  intro fuel
  induction fuel with
  | zero => intro it; rfl
  | succ fuel ih =>
    intro it
    by_cases hc : env.cancel it = true
    · simp [dispatchGo, hc, hasJoinWait]
    · by_cases hw : nt ≤ env.waitResult it
      · simp [dispatchGo, hc, hw, hasJoinWait, isJoinWait]
      · by_cases hs : env.setDataEvent it = false
        · simp [dispatchGo, hc, hw, hs, hasJoinWait, isJoinWait]
        · have := ih (it + 1)
          simp only [dispatchGo, if_neg hc, if_neg hw, if_neg hs]
          simp only [hasJoinWait, List.any_cons, isJoinWait] at this ⊢
          simp [this]

theorem dispatchGo_waits (env : CEnv) (nt : Nat) :
    ∀ fuel it, waitsBoundedC nt (dispatchGo env nt fuel it).2 = true := by
  intro fuel
  induction fuel with
  | zero => intro it; rfl
  | succ fuel ih =>
    intro it
    by_cases hc : env.cancel it = true
    · simp [dispatchGo, hc, waitsBoundedC]
    · by_cases hw : nt ≤ env.waitResult it
      · simp [dispatchGo, hc, hw, waitsBoundedC]
      · by_cases hs : env.setDataEvent it = false
        · simp [dispatchGo, hc, hw, hs, waitsBoundedC]
        · have := ih (it + 1)
          simp only [dispatchGo, if_neg hc, if_neg hw, if_neg hs]
          simp only [waitsBoundedC, List.all_cons] at this ⊢
          simp [this]

theorem dispatchGo_noZeroWrite (env : CEnv) (nt : Nat) (fuel it : Nat) (h1 : 1 ≤ it) :
    noZeroWrite (dispatchGo env nt fuel it).2 = true := by
  rw [noZeroWrite, List.all_eq_true]
  intro a ha
  cases a with
  | writeSlot i v =>
    have := dispatchGo_write_range env nt fuel it i v ha
    cases v with
    | zero => omega
    | succ v => rfl
  | log t => rfl
  | createEvent a i ok => rfl
  | createThread i ok => rfl
  | setPriority i => rfl
  | setAffinity i m => rfl
  | waitMulti c t w => rfl
  | signalData i => rfl
  | sleepMs ms => rfl
  | readArr a i => rfl
  | terminate i => rfl
  | closeHandle a i => rfl
  | freeArr a => rfl

/-- Trace of `n` clean dispatch rounds starting at iteration `it`. -/
def dispatchBlocks (env : CEnv) (nt it n : Nat) : List CAct :=
  ((List.range' it n).map fun j =>
    [CAct.waitMulti nt WAIT_TIME false, CAct.writeSlot (env.waitResult j) j,
      CAct.signalData (env.waitResult j)]).join

theorem dispatchBlocks_succ (env : CEnv) (nt it n : Nat) :
    dispatchBlocks env nt it (n + 1) =
      CAct.waitMulti nt WAIT_TIME false :: CAct.writeSlot (env.waitResult it) it ::
        CAct.signalData (env.waitResult it) :: dispatchBlocks env nt (it + 1) n := by
  simp [dispatchBlocks, List.range'_succ]

/-- A failure-free dispatch run of exactly `k` rounds: every iteration up to
`k` succeeds, and either the iteration bound or an observed cancellation stops
the loop after round `k`. -/
theorem dispatchGo_clean (env : CEnv) (nt k : Nat) (hk : k ≤ MAX_ITERATIONS) :
    ∀ fuel it, it + fuel = MAX_ITERATIONS + 1 → 1 ≤ it → it ≤ k + 1 →
    (∀ j, it ≤ j → j ≤ k → env.cancel j = false ∧ env.waitResult j < nt ∧
      env.setDataEvent j = true) →
    (k < MAX_ITERATIONS → env.cancel (k + 1) = true) →
    dispatchGo env nt fuel it = (true, dispatchBlocks env nt it (k + 1 - it)) := by
  simp only [MAX_ITERATIONS] at hk ⊢
  intro fuel
  induction fuel with
  | zero =>
    intro it h101 h1 hk1 hgood hstop
    have he : k + 1 - it = 0 := by omega
    rw [he]
    rfl
  | succ fuel ih =>
    intro it h101 h1 hk1 hgood hstop
    rcases Nat.lt_or_ge k it with hlt | hge
    · have hit : it = k + 1 := by omega
      have hc : env.cancel it = true := by
        rw [hit]
        exact hstop (by omega)
      rw [dispatchGo_cancel_stops env nt _ it hc]
      have he : k + 1 - it = 0 := by omega
      rw [he]
      rfl
    · have hj := hgood it (Nat.le_refl it) hge
      have hrec := ih (it + 1) (by omega) (by omega) (by omega)
        (fun j hj1 hj2 => hgood j (by omega) hj2) hstop
      have hnw : ¬ nt ≤ env.waitResult it := by omega
      have hns : ¬ env.setDataEvent it = false := by simp [hj.2.2]
      simp only [dispatchGo, if_neg (by simp [hj.1] : ¬ env.cancel it = true),
        if_neg hnw, if_neg hns, hrec]
      have he : k + 1 - it = (k - it) + 1 := by omega
      have he2 : k + 1 - (it + 1) = k - it := by omega
      rw [he, dispatchBlocks_succ, he2]

theorem dispatchBlocks_countVal (env : CEnv) (nt : Nat) :
    ∀ n it v, countWriteVal v (dispatchBlocks env nt it n) =
      if it ≤ v ∧ v < it + n then 1 else 0 := by
  intro n
  induction n with
  | zero =>
    intro it v
    rw [if_neg (by omega)]
    simp [dispatchBlocks, countWriteVal]
  | succ n ih =>
    intro it v
    rw [dispatchBlocks_succ]
    simp only [countWriteVal, List.countP_cons] at ih ⊢
    rw [ih (it + 1) v]
    by_cases hv : it = v
    · subst hv
      have h2 : ¬(it + 1 ≤ it ∧ it < it + 1 + n) := by omega
      have h3 : it ≤ it ∧ it < it + (n + 1) := by omega
      simp [h2, h3]
    · have hbe : (it == v) = false := by simp [hv]
      simp only [hbe]
      have hiff : (it + 1 ≤ v ∧ v < it + 1 + n) ↔ (it ≤ v ∧ v < it + (n + 1)) := by omega
      simp [hiff]

theorem dispatchBlocks_countNonZero (env : CEnv) (nt : Nat) :
    ∀ n it, 1 ≤ it → countNonZeroWrite (dispatchBlocks env nt it n) = n := by
  intro n
  induction n with
  | zero => intro it _; simp [dispatchBlocks, countNonZeroWrite]
  | succ n ih =>
    intro it h1
    rw [dispatchBlocks_succ]
    simp only [countNonZeroWrite, List.countP_cons] at ih ⊢
    rw [ih (it + 1) (by omega)]
    have : (it == 0) = false := by
      simp
      omega
    simp [this]

theorem dispatchBlocks_noZeroWrite (env : CEnv) (nt : Nat) :
    ∀ n it, 1 ≤ it → noZeroWrite (dispatchBlocks env nt it n) = true := by
  intro n
  induction n with
  | zero => intro it _; rfl
  | succ n ih =>
    intro it h1
    rw [dispatchBlocks_succ]
    simp only [noZeroWrite, List.all_cons] at ih ⊢
    rw [ih (it + 1) (by omega)]
    have hz : isZeroWrite (CAct.writeSlot (env.waitResult it) it) = false := by
      cases it with
      | zero => omega
      | succ j => rfl
    simp only [hz]
    simp [isZeroWrite]

/-! ### Trace shape lemmas for the setup, broadcast and teardown segments -/

theorem counts_zero_of_no_writes (tr : List CAct)
    (h : ∀ i v, CAct.writeSlot i v ∉ tr) :
    countWrites tr = 0 ∧ noZeroWrite tr = true ∧ countNonZeroWrite tr = 0 ∧
    (∀ v, countWriteVal v tr = 0) ∧ (∀ w, countZeroWriteTo w tr = 0) := by
  refine ⟨?_, ?_, ?_, fun v => ?_, fun w => ?_⟩
  · rw [countWrites, List.countP_eq_zero]
    intro a ha
    cases a <;> first | exact absurd ha (h _ _) | simp
  · rw [noZeroWrite, List.all_eq_true]
    intro a ha
    cases a <;> first | exact absurd ha (h _ _) | rfl
  · rw [countNonZeroWrite, List.countP_eq_zero]
    intro a ha
    cases a <;> first | exact absurd ha (h _ _) | simp
  · rw [countWriteVal, List.countP_eq_zero]
    intro a ha
    cases a <;> first | exact absurd ha (h _ _) | simp
  · rw [countZeroWriteTo, List.countP_eq_zero]
    intro a ha
    cases a <;> first | exact absurd ha (h _ _) | simp

theorem waitsBoundedC_of_no_waits (nt : Nat) (tr : List CAct)
    (h : ∀ c t w, CAct.waitMulti c t w ∉ tr) : waitsBoundedC nt tr = true := by
  rw [waitsBoundedC, List.all_eq_true]
  intro a ha
  cases a with
  | waitMulti c t w => exact absurd ha (h c t w)
  | log t => rfl
  | createEvent n i ok => rfl
  | createThread i ok => rfl
  | setPriority i => rfl
  | setAffinity i m => rfl
  | writeSlot i v => rfl
  | signalData i => rfl
  | sleepMs ms => rfl
  | readArr n i => rfl
  | terminate i => rfl
  | closeHandle n i => rfl
  | freeArr n => rfl

theorem hasJoinWait_of_no_joins (tr : List CAct)
    (h : ∀ c t, CAct.waitMulti c t true ∉ tr) : hasJoinWait tr = false := by
  rw [hasJoinWait, List.any_eq_false]
  intro a ha
  cases a with
  | waitMulti c t w =>
    cases w with
    | true => exact absurd ha (h c t)
    | false => simp [isJoinWait]
  | log t => simp [isJoinWait]
  | createEvent n i ok => simp [isJoinWait]
  | createThread i ok => simp [isJoinWait]
  | setPriority i => simp [isJoinWait]
  | setAffinity i m => simp [isJoinWait]
  | writeSlot i v => simp [isJoinWait]
  | signalData i => simp [isJoinWait]
  | sleepMs ms => simp [isJoinWait]
  | readArr n i => simp [isJoinWait]
  | terminate i => simp [isJoinWait]
  | closeHandle n i => simp [isJoinWait]
  | freeArr n => simp [isJoinWait]

theorem countZeroWriteTo_eq_zero_of_noZero (w : Nat) (tr : List CAct)
    (h : noZeroWrite tr = true) : countZeroWriteTo w tr = 0 := by
  rw [countZeroWriteTo, List.countP_eq_zero]
  intro a ha
  rw [noZeroWrite, List.all_eq_true] at h
  have hz := h a ha
  cases a with
  | writeSlot i v =>
    cases v with
    | zero => simp [isZeroWrite] at hz
    | succ v => simp
  | log t => simp
  | createEvent n i ok => simp
  | createThread i ok => simp
  | setPriority i => simp
  | setAffinity i m => simp
  | waitMulti c t wl => simp
  | signalData i => simp
  | sleepMs ms => simp
  | readArr n i => simp
  | terminate i => simp
  | closeHandle n i => simp
  | freeArr n => simp

theorem setupGo_mem (env : CEnv) (tal : List Nat) :
    ∀ l a, a ∈ (setupGo env tal l).trace →
      (∃ n i ok, a = CAct.createEvent n i ok) ∨ (∃ i ok, a = CAct.createThread i ok) ∨
      (∃ i, a = CAct.setPriority i) ∨ (∃ i m, a = CAct.setAffinity i m) ∨
      (∃ t, a = CAct.log t) := by
  intro l
  induction l with
  | nil => intro a ha; simp [setupGo] at ha
  | cons i is ih =>
    intro a ha
    simp only [setupGo] at ha
    by_cases h1 : env.createDataReady i = false ∨ env.createThreadReady i = false
    · rw [if_pos h1] at ha
      simp only [List.cons_append, List.nil_append, List.mem_cons,
        List.not_mem_nil, or_false] at ha
      rcases ha with rfl | rfl | rfl
      · exact Or.inl ⟨_, _, _, rfl⟩
      · exact Or.inl ⟨_, _, _, rfl⟩
      · exact Or.inr (Or.inr (Or.inr (Or.inr ⟨_, rfl⟩)))
    · rw [if_neg h1] at ha
      by_cases h2 : env.createThread i = false
      · rw [if_pos h2] at ha
        simp only [List.cons_append, List.nil_append, List.mem_cons,
          List.not_mem_nil, or_false] at ha
        rcases ha with rfl | rfl | rfl | rfl
        · exact Or.inl ⟨_, _, _, rfl⟩
        · exact Or.inl ⟨_, _, _, rfl⟩
        · exact Or.inr (Or.inl ⟨_, _, rfl⟩)
        · exact Or.inr (Or.inr (Or.inr (Or.inr ⟨_, rfl⟩)))
      · rw [if_neg h2] at ha
        by_cases h3 : tal.getD i 0 ≠ 0
        · rw [if_pos h3] at ha
          simp only [List.cons_append, List.nil_append, List.mem_cons,
            List.mem_append, List.not_mem_nil, or_false] at ha
          rcases ha with rfl | rfl | rfl | rfl | rfl | hmem
          · exact Or.inl ⟨_, _, _, rfl⟩
          · exact Or.inl ⟨_, _, _, rfl⟩
          · exact Or.inr (Or.inl ⟨_, _, rfl⟩)
          · exact Or.inr (Or.inr (Or.inl ⟨_, rfl⟩))
          · exact Or.inr (Or.inr (Or.inr (Or.inl ⟨_, _, rfl⟩)))
          · exact ih a hmem
        · rw [if_neg h3] at ha
          simp only [List.cons_append, List.nil_append, List.mem_cons,
            List.mem_append, List.not_mem_nil, or_false] at ha
          rcases ha with rfl | rfl | rfl | rfl | hmem
          · exact Or.inl ⟨_, _, _, rfl⟩
          · exact Or.inl ⟨_, _, _, rfl⟩
          · exact Or.inr (Or.inl ⟨_, _, rfl⟩)
          · exact Or.inr (Or.inr (Or.inl ⟨_, rfl⟩))
          · exact ih a hmem

theorem setupGo_fields (env : CEnv) (tal : List Nat) :
    ∀ l, (∀ i ∈ l, env.createDataReady i = true ∧ env.createThreadReady i = true ∧
      env.createThread i = true) →
    (setupGo env tal l).ok = true ∧
    (∀ j, (setupGo env tal l).dC j = l.contains j) ∧
    (∀ j, (setupGo env tal l).rC j = l.contains j) ∧
    (∀ j, (setupGo env tal l).tC j = l.contains j) := by
  intro l
  induction l with
  | nil =>
    intro _
    exact ⟨rfl, fun j => rfl, fun j => rfl, fun j => rfl⟩
  | cons i is ih =>
    intro h
    have hi := h i (by simp)
    obtain ⟨hok, hd, hr, ht⟩ := ih fun x hx => h x (by simp [hx])
    have h1 : ¬ (env.createDataReady i = false ∨ env.createThreadReady i = false) := by
      simp [hi.1, hi.2.1]
    have h2 : ¬ env.createThread i = false := by simp [hi.2.2]
    refine ⟨?_, fun j => ?_, fun j => ?_, fun j => ?_⟩ <;>
      simp only [setupGo, if_neg h1, if_neg h2]
    · exact hok
    · rw [hd j]
      by_cases hji : j = i <;> simp [List.contains_cons, hji]
    · rw [hr j]
      by_cases hji : j = i <;> simp [List.contains_cons, hji]
    · rw [ht j]
      by_cases hji : j = i <;> simp [List.contains_cons, hji]

theorem cleanup_mem (nt : Nat) (dC rC tC : Nat → Bool) :
    ∀ a ∈ cleanup nt dC rC tC,
      (∃ n i, a = CAct.readArr n i) ∨ (∃ i, a = CAct.terminate i) ∨
      (∃ n i, a = CAct.closeHandle n i) ∨ (∃ n, a = CAct.freeArr n) := by
  intro a ha
  simp only [cleanup, List.mem_append, List.mem_join, List.mem_map] at ha
  rcases ha with ⟨l, ⟨i, _, rfl⟩, hal⟩ | hfree
  · simp only [List.mem_cons, List.mem_append] at hal
    rcases hal with rfl | hal
    · exact Or.inl ⟨_, _, rfl⟩
    rcases hal with hterm | hal
    · split at hterm
      · simp only [List.mem_cons, List.not_mem_nil, or_false] at hterm
        subst hterm
        exact Or.inr (Or.inl ⟨_, rfl⟩)
      · simp at hterm
    rcases hal with rfl | hal
    · exact Or.inl ⟨_, _, rfl⟩
    rcases hal with hclose | hal
    · split at hclose
      · simp only [List.mem_cons, List.not_mem_nil, or_false] at hclose
        subst hclose
        exact Or.inr (Or.inr (Or.inl ⟨_, _, rfl⟩))
      · simp at hclose
    rcases hal with rfl | hclose
    · exact Or.inl ⟨_, _, rfl⟩
    · split at hclose
      · simp only [List.mem_cons, List.not_mem_nil, or_false] at hclose
        subst hclose
        exact Or.inr (Or.inr (Or.inl ⟨_, _, rfl⟩))
      · simp at hclose
  · simp only [List.mem_cons, List.not_mem_nil, or_false] at hfree
    rcases hfree with rfl | rfl | rfl | rfl
    · exact Or.inr (Or.inr (Or.inr ⟨_, rfl⟩))
    · exact Or.inr (Or.inr (Or.inr ⟨_, rfl⟩))
    · exact Or.inr (Or.inr (Or.inr ⟨_, rfl⟩))
    · exact Or.inr (Or.inr (Or.inr ⟨_, rfl⟩))

theorem cleanup_terminate_mem (nt : Nat) (dC rC tC : Nat → Bool) (w : Nat)
    (hw : w < nt) (ht : tC w = true) : CAct.terminate w ∈ cleanup nt dC rC tC := by
  apply List.mem_append_left
  rw [List.mem_join]
  refine ⟨_, List.mem_map_of_mem _ (List.mem_range.mpr hw), ?_⟩
  apply List.mem_cons_of_mem
  apply List.mem_append_left
  rw [if_pos ht]
  simp

theorem broadcastTrace_mem (nt : Nat) (a : CAct) (ha : a ∈ broadcastTrace nt) :
    (∃ w, w < nt ∧ a = CAct.writeSlot w 0) ∨ (∃ w, a = CAct.signalData w) := by
  simp only [broadcastTrace, List.mem_append, List.mem_map, List.mem_range] at ha
  rcases ha with ⟨w, hw, rfl⟩ | ⟨w, _, rfl⟩
  · exact Or.inl ⟨w, hw, rfl⟩
  · exact Or.inr ⟨w, rfl⟩

theorem setupGo_no_writes (env : CEnv) (tal : List Nat) (l : List Nat) :
    ∀ i v, CAct.writeSlot i v ∉ (setupGo env tal l).trace := by
  intro i v hmem
  rcases setupGo_mem env tal l _ hmem with ⟨n, i2, ok, he⟩ | ⟨i2, ok, he⟩ |
    ⟨i2, he⟩ | ⟨i2, m, he⟩ | ⟨t, he⟩ <;> simp at he

theorem cleanup_no_writes (nt : Nat) (dC rC tC : Nat → Bool) :
    ∀ i v, CAct.writeSlot i v ∉ cleanup nt dC rC tC := by
  intro i v hmem
  rcases cleanup_mem nt dC rC tC _ hmem with ⟨n, i2, he⟩ | ⟨i2, he⟩ |
    ⟨n, i2, he⟩ | ⟨n, he⟩ <;> simp at he

theorem setupGo_no_waits (env : CEnv) (tal : List Nat) (l : List Nat) :
    ∀ c t w, CAct.waitMulti c t w ∉ (setupGo env tal l).trace := by
  intro c t w hmem
  rcases setupGo_mem env tal l _ hmem with ⟨n, i2, ok, he⟩ | ⟨i2, ok, he⟩ |
    ⟨i2, he⟩ | ⟨i2, m, he⟩ | ⟨t2, he⟩ <;> simp at he

theorem cleanup_no_waits (nt : Nat) (dC rC tC : Nat → Bool) :
    ∀ c t w, CAct.waitMulti c t w ∉ cleanup nt dC rC tC := by
  intro c t w hmem
  rcases cleanup_mem nt dC rC tC _ hmem with ⟨n, i2, he⟩ | ⟨i2, he⟩ |
    ⟨n, i2, he⟩ | ⟨n, he⟩ <;> simp at he

theorem broadcastTrace_no_waits (nt : Nat) :
    ∀ c t w, CAct.waitMulti c t w ∉ broadcastTrace nt := by
  intro c t w hmem
  rcases broadcastTrace_mem nt _ hmem with ⟨w2, _, he⟩ | ⟨w2, he⟩ <;> simp at he

theorem broadcast_countZeroTo (w : Nat) : ∀ nt,
    countZeroWriteTo w (broadcastTrace nt) = if w < nt then 1 else 0 := by
  have hsig : ∀ nt, countZeroWriteTo w
      ((List.range nt).map fun x => CAct.signalData x) = 0 := by
    intro nt
    rw [countZeroWriteTo, List.countP_eq_zero]
    intro a ha
    obtain ⟨x, _, rfl⟩ := List.mem_map.mp ha
    simp
  have hwr : ∀ nt, countZeroWriteTo w
      ((List.range nt).map fun x => CAct.writeSlot x 0) = if w < nt then 1 else 0 := by
    intro nt
    induction nt with
    | zero => simp [countZeroWriteTo]
    | succ nt ih =>
      rw [List.range_succ, List.map_append]
      simp only [countZeroWriteTo, List.countP_append] at ih ⊢
      rw [ih]
      by_cases hw : w = nt
      · subst hw
        rw [if_neg (by omega), if_pos (by omega)]
        simp [List.countP_cons]
      · have hb : (nt == w) = false := by
          simp
          omega
        by_cases hw2 : w < nt
        · rw [if_pos hw2, if_pos (by omega)]
          simp [List.countP_cons, hb]
        · rw [if_neg hw2, if_neg (by omega)]
          simp [List.countP_cons, hb]
  intro nt
  rw [broadcastTrace]
  simp only [countZeroWriteTo, List.countP_append] at hsig hwr ⊢
  rw [hwr nt, hsig nt]
  omega

theorem broadcast_countNonZero (nt : Nat) :
    countNonZeroWrite (broadcastTrace nt) = 0 := by
  rw [countNonZeroWrite, List.countP_eq_zero]
  intro a ha
  rcases broadcastTrace_mem nt _ ha with ⟨w2, _, rfl⟩ | ⟨w2, rfl⟩ <;> simp

theorem broadcast_countVal (nt v : Nat) (hv : 1 ≤ v) :
    countWriteVal v (broadcastTrace nt) = 0 := by
  rw [countWriteVal, List.countP_eq_zero]
  intro a ha
  rcases broadcastTrace_mem nt _ ha with ⟨w2, _, rfl⟩ | ⟨w2, rfl⟩
  · simp
    omega
  · simp

/-! ### Path lemmas for `controlRun` -/

theorem controlRun_allocFail (nt : Nat) (tal : List Nat) (env : CEnv) (hnt : nt ≠ 0)
    (h : (env.allocTask && env.allocDataReady && env.allocThreadReady &&
      env.allocThreadData) = false) :
    controlRun nt (some tal) env = (1, CAct.log CTag.allocFail ::
      cleanup nt (fun _ => false) (fun _ => false) (fun _ => false)) := by
  simp [controlRun, hnt, h]

theorem controlRun_setupFail (nt : Nat) (tal : List Nat) (env : CEnv) (hnt : nt ≠ 0)
    (ha : (env.allocTask && env.allocDataReady && env.allocThreadReady &&
      env.allocThreadData) = true)
    (hs : (setupGo env tal (List.range nt)).ok = false) :
    controlRun nt (some tal) env = (1,
      (CAct.log CTag.creating :: (setupGo env tal (List.range nt)).trace) ++
        cleanup nt (setupGo env tal (List.range nt)).dC
          (setupGo env tal (List.range nt)).rC (setupGo env tal (List.range nt)).tC) := by
  simp [controlRun, hnt, ha, hs]

theorem controlRun_dispatchFail (nt : Nat) (tal : List Nat) (env : CEnv) (hnt : nt ≠ 0)
    (ha : (env.allocTask && env.allocDataReady && env.allocThreadReady &&
      env.allocThreadData) = true)
    (hs : (setupGo env tal (List.range nt)).ok = true)
    (hd : (dispatchGo env nt MAX_ITERATIONS 1).1 = false) :
    controlRun nt (some tal) env = (1,
      (CAct.log CTag.creating :: (setupGo env tal (List.range nt)).trace) ++
        (dispatchGo env nt MAX_ITERATIONS 1).2 ++
        cleanup nt (setupGo env tal (List.range nt)).dC
          (setupGo env tal (List.range nt)).rC (setupGo env tal (List.range nt)).tC) := by
  simp [controlRun, hnt, ha, hs, hd]

theorem controlRun_joinOk (nt : Nat) (tal : List Nat) (env : CEnv) (hnt : nt ≠ 0)
    (ha : (env.allocTask && env.allocDataReady && env.allocThreadReady &&
      env.allocThreadData) = true)
    (hs : (setupGo env tal (List.range nt)).ok = true)
    (hd : (dispatchGo env nt MAX_ITERATIONS 1).1 = true)
    (hj : env.joinResult = 0) :
    controlRun nt (some tal) env = (0,
      (CAct.log CTag.creating :: (setupGo env tal (List.range nt)).trace) ++
        (dispatchGo env nt MAX_ITERATIONS 1).2 ++
        (CAct.sleepMs 250 :: (broadcastTrace nt ++
          [CAct.waitMulti nt WAIT_TIME true])) ++
        cleanup nt (setupGo env tal (List.range nt)).dC
          (setupGo env tal (List.range nt)).rC (fun _ => false)) := by
  simp [controlRun, hnt, ha, hs, hd, hj]

theorem controlRun_joinFail (nt : Nat) (tal : List Nat) (env : CEnv) (hnt : nt ≠ 0)
    (ha : (env.allocTask && env.allocDataReady && env.allocThreadReady &&
      env.allocThreadData) = true)
    (hs : (setupGo env tal (List.range nt)).ok = true)
    (hd : (dispatchGo env nt MAX_ITERATIONS 1).1 = true)
    (hj : env.joinResult ≠ 0) :
    controlRun nt (some tal) env = (1,
      (CAct.log CTag.creating :: (setupGo env tal (List.range nt)).trace) ++
        (dispatchGo env nt MAX_ITERATIONS 1).2 ++
        (CAct.sleepMs 250 :: (broadcastTrace nt ++
          [CAct.waitMulti nt WAIT_TIME true])) ++
        (CAct.log CTag.didNotFinalize ::
          cleanup nt (setupGo env tal (List.range nt)).dC
            (setupGo env tal (List.range nt)).rC (setupGo env tal (List.range nt)).tC)) := by
  simp [controlRun, hnt, ha, hs, hd, hj]

/-! ### Counting over composed traces -/

theorem noZeroWrite_append (l1 l2 : List CAct) :
    noZeroWrite (l1 ++ l2) = (noZeroWrite l1 && noZeroWrite l2) := by
  simp [noZeroWrite]

theorem noZeroWrite_cons (a : CAct) (l : List CAct) :
    noZeroWrite (a :: l) = (!isZeroWrite a && noZeroWrite l) := by
  simp [noZeroWrite]

theorem countNonZeroWrite_append (l1 l2 : List CAct) :
    countNonZeroWrite (l1 ++ l2) = countNonZeroWrite l1 + countNonZeroWrite l2 := by
  simp [countNonZeroWrite, List.countP_append]

theorem countWriteVal_append (v : Nat) (l1 l2 : List CAct) :
    countWriteVal v (l1 ++ l2) = countWriteVal v l1 + countWriteVal v l2 := by
  simp [countWriteVal, List.countP_append]

theorem countZeroWriteTo_append (w : Nat) (l1 l2 : List CAct) :
    countZeroWriteTo w (l1 ++ l2) = countZeroWriteTo w l1 + countZeroWriteTo w l2 := by
  simp [countZeroWriteTo, List.countP_append]

theorem waitsBoundedC_append (nt : Nat) (l1 l2 : List CAct) :
    waitsBoundedC nt (l1 ++ l2) = (waitsBoundedC nt l1 && waitsBoundedC nt l2) := by
  simp [waitsBoundedC]

theorem hasJoinWait_append (l1 l2 : List CAct) :
    hasJoinWait (l1 ++ l2) = (hasJoinWait l1 || hasJoinWait l2) := by
  simp [hasJoinWait]

/-! ### Concrete environments used by witnesses and counterexamples -/

/-- Fully healthy environment except that every aggregate wait fails
(e.g. times out, result `WAIT_TIMEOUT = 258`). -/
def envDispatchFail : CEnv :=
  { allocTask := true, allocDataReady := true, allocThreadReady := true,
    allocThreadData := true, createDataReady := fun _ => true,
    createThreadReady := fun _ => true, createThread := fun _ => true,
    cancel := fun _ => false, waitResult := fun _ => 258,
    setDataEvent := fun _ => true, joinResult := 0 }

/-- Fully healthy environment where cancellation is observed from iteration 2
on, so exactly one dispatch round runs. -/
def envCleanRun : CEnv :=
  { allocTask := true, allocDataReady := true, allocThreadReady := true,
    allocThreadData := true, createDataReady := fun _ => true,
    createThreadReady := fun _ => true, createThread := fun _ => true,
    cancel := fun it => decide (2 ≤ it), waitResult := fun _ => 0,
    setDataEvent := fun _ => true, joinResult := 0 }

/-- Environment where cancellation is already observed at iteration 1. -/
def envCancelNow : CEnv :=
  { allocTask := true, allocDataReady := true, allocThreadReady := true,
    allocThreadData := true, createDataReady := fun _ => true,
    createThreadReady := fun _ => true, createThread := fun _ => true,
    cancel := fun _ => true, waitResult := fun _ => 0,
    setDataEvent := fun _ => true, joinResult := 0 }

/-- Environment where the `calloc` for the `data_ready` array fails while the
other three allocations succeed. -/
def envAllocFail : CEnv :=
  { allocTask := true, allocDataReady := false, allocThreadReady := true,
    allocThreadData := true, createDataReady := fun _ => true,
    createThreadReady := fun _ => true, createThread := fun _ => true,
    cancel := fun _ => false, waitResult := fun _ => 258,
    setDataEvent := fun _ => true, joinResult := 0 }

/-! ### Claim theorems about the dispatch loop and control thread -/

/-- C6: the dispatch loop performs at most `MAX_ITERATIONS` rounds per run
(so at most that many slot writes), a cancellation flag observed at the loop
condition stops the loop immediately with no further rounds, and in every
round the work value is written into the ready worker's slot immediately
before that worker's data-ready event is signalled, never after. -/
theorem C6_dispatch_loop_shape :
    (∀ env nt, countWrites (dispatchGo env nt MAX_ITERATIONS 1).2 ≤ MAX_ITERATIONS) ∧
    (∀ env nt fuel it, env.cancel it = true → dispatchGo env nt fuel it = (true, [])) ∧
    (∀ env nt, wbs (dispatchGo env nt MAX_ITERATIONS 1).2 = true) :=
  ⟨fun env nt => dispatchGo_writes_le env nt MAX_ITERATIONS 1,
   fun env nt fuel it h => dispatchGo_cancel_stops env nt fuel it h,
   fun env nt => dispatchGo_wbs env nt MAX_ITERATIONS 1⟩

/-- C6 witness: concrete instances of the three conjuncts. -/
theorem C6_dispatch_loop_shape_witness :
    countWrites (dispatchGo envCancelNow 1 MAX_ITERATIONS 1).2 ≤ MAX_ITERATIONS ∧
    dispatchGo envCancelNow 1 100 1 = (true, []) ∧
    wbs (dispatchGo envCancelNow 1 MAX_ITERATIONS 1).2 = true :=
  ⟨C6_dispatch_loop_shape.1 envCancelNow 1,
   C6_dispatch_loop_shape.2.1 envCancelNow 1 100 1 rfl,
   C6_dispatch_loop_shape.2.2 envCancelNow 1⟩

/-- C10: every work value the dispatch loop writes is the current round
number, in `1 .. MAX_ITERATIONS`, hence never the sentinel 0; and in any
control-thread run, either no sentinel is ever written (the run aborted
before shutdown) or all sentinel writes are exactly the shutdown broadcast
block (one write of 0 per worker). -/
theorem C10_dispatch_values_not_sentinel :
    (∀ env nt i v, CAct.writeSlot i v ∈ (dispatchGo env nt MAX_ITERATIONS 1).2 →
      1 ≤ v ∧ v ≤ MAX_ITERATIONS) ∧
    (∀ nt ta env, noZeroWrite (controlRun nt ta env).2 = true ∨
      ∃ t1 t2, (controlRun nt ta env).2 = t1 ++ broadcastTrace nt ++ t2 ∧
        noZeroWrite t1 = true ∧ noZeroWrite t2 = true) := by
  constructor
  · intro env nt i v hmem
    have := dispatchGo_write_range env nt MAX_ITERATIONS 1 i v hmem
    simp only [MAX_ITERATIONS] at this ⊢
    omega
  · intro nt ta env
    have hcleanup : ∀ dC rC tC : Nat → Bool, noZeroWrite (cleanup nt dC rC tC) = true :=
      fun dC rC tC => (counts_zero_of_no_writes _ (cleanup_no_writes nt dC rC tC)).2.1
    cases ta with
    | none => exact Or.inl rfl
    | some tal =>
      by_cases hnt : nt = 0
      · subst hnt
        exact Or.inl rfl
      by_cases halloc : (env.allocTask && env.allocDataReady && env.allocThreadReady &&
          env.allocThreadData) = false
      · rw [controlRun_allocFail nt tal env hnt halloc]
        exact Or.inl (by rw [noZeroWrite_cons, hcleanup]; rfl)
      have ha : (env.allocTask && env.allocDataReady && env.allocThreadReady &&
          env.allocThreadData) = true := by
        revert halloc
        cases env.allocTask && env.allocDataReady && env.allocThreadReady &&
          env.allocThreadData <;> simp
      have hsetup : noZeroWrite (setupGo env tal (List.range nt)).trace = true :=
        (counts_zero_of_no_writes _ (setupGo_no_writes env tal (List.range nt))).2.1
      have hdispnz : noZeroWrite (dispatchGo env nt MAX_ITERATIONS 1).2 = true :=
        dispatchGo_noZeroWrite env nt MAX_ITERATIONS 1 (Nat.le_refl 1)
      by_cases hs : (setupGo env tal (List.range nt)).ok = false
      · rw [controlRun_setupFail nt tal env hnt ha hs]
        refine Or.inl ?_
        rw [noZeroWrite_append, noZeroWrite_cons, hsetup, hcleanup]
        rfl
      have hs' : (setupGo env tal (List.range nt)).ok = true := by
        revert hs
        cases (setupGo env tal (List.range nt)).ok <;> simp
      by_cases hd : (dispatchGo env nt MAX_ITERATIONS 1).1 = false
      · rw [controlRun_dispatchFail nt tal env hnt ha hs' hd]
        refine Or.inl ?_
        rw [noZeroWrite_append, noZeroWrite_append, noZeroWrite_cons, hsetup,
          hcleanup, hdispnz]
        rfl
      have hd' : (dispatchGo env nt MAX_ITERATIONS 1).1 = true := by
        revert hd
        cases (dispatchGo env nt MAX_ITERATIONS 1).1 <;> simp
      by_cases hj : env.joinResult = 0
      · rw [controlRun_joinOk nt tal env hnt ha hs' hd' hj]
        refine Or.inr ⟨(CAct.log CTag.creating :: (setupGo env tal (List.range nt)).trace) ++
          (dispatchGo env nt MAX_ITERATIONS 1).2 ++ [CAct.sleepMs 250],
          [CAct.waitMulti nt WAIT_TIME true] ++
            cleanup nt (setupGo env tal (List.range nt)).dC
              (setupGo env tal (List.range nt)).rC (fun _ => false), ?_, ?_, ?_⟩
        · simp [List.append_assoc]
        · rw [noZeroWrite_append, noZeroWrite_append, noZeroWrite_cons, hsetup, hdispnz]
          rfl
        · rw [noZeroWrite_append, hcleanup]
          rfl
      · rw [controlRun_joinFail nt tal env hnt ha hs' hd' hj]
        refine Or.inr ⟨(CAct.log CTag.creating :: (setupGo env tal (List.range nt)).trace) ++
          (dispatchGo env nt MAX_ITERATIONS 1).2 ++ [CAct.sleepMs 250],
          [CAct.waitMulti nt WAIT_TIME true] ++ (CAct.log CTag.didNotFinalize ::
            cleanup nt (setupGo env tal (List.range nt)).dC
              (setupGo env tal (List.range nt)).rC (setupGo env tal (List.range nt)).tC),
          ?_, ?_, ?_⟩
        · simp [List.append_assoc]
        · rw [noZeroWrite_append, noZeroWrite_append, noZeroWrite_cons, hsetup, hdispnz]
          rfl
        · rw [noZeroWrite_append, noZeroWrite_cons, noZeroWrite_cons, hcleanup]
          rfl

/-- C10 witness: in a clean one-round run, the value 1 is written, and the
range bound holds for it. -/
theorem C10_dispatch_values_not_sentinel_witness :
    (1 ≤ 1 ∧ 1 ≤ MAX_ITERATIONS) ∧
    (noZeroWrite (controlRun 1 (some [1]) envCleanRun).2 = true ∨
      ∃ t1 t2, (controlRun 1 (some [1]) envCleanRun).2 =
        t1 ++ broadcastTrace 1 ++ t2 ∧
        noZeroWrite t1 = true ∧ noZeroWrite t2 = true) :=
  ⟨C10_dispatch_values_not_sentinel.1 envCleanRun 1 0 1 (by decide),
   C10_dispatch_values_not_sentinel.2 1 (some [1]) envCleanRun⟩

theorem dummyLoop_waits (c : Nat → Bool) : waitsBoundedW (dummyLoop c) = true := by
  rw [waitsBoundedW, List.all_eq_true]
  intro a ha
  obtain ⟨x, _, rfl⟩ := List.mem_map.mp ha
  rfl

theorem workerRun_waits : ∀ rs, waitsBoundedW (workerRun rs).2 = true := by
  intro rs
  induction rs with
  | nil => rfl
  | cons r rs ih =>
    by_cases h1 : r.readyOk = false
    · simp [workerRun, h1, waitsBoundedW]
    · by_cases h2 : r.dataWaitOk = false
      · simp [workerRun, h1, h2, waitsBoundedW]
      · by_cases h3 : r.slot = 0
        · simp [workerRun, h1, h2, h3, waitsBoundedW]
        · simp only [workerRun, if_neg h1, if_neg h2, if_neg h3]
          have hdl := dummyLoop_waits r.cancel
          simp only [waitsBoundedW] at ih hdl
          simp [waitsBoundedW, ih, hdl]

theorem controlRun_waits (nt : Nat) (ta : Option (List Nat)) (env : CEnv) :
    waitsBoundedC nt (controlRun nt ta env).2 = true := by
  have hcleanup : ∀ dC rC tC : Nat → Bool, waitsBoundedC nt (cleanup nt dC rC tC) = true :=
    fun dC rC tC => waitsBoundedC_of_no_waits nt _ (cleanup_no_waits nt dC rC tC)
  cases ta with
  | none => rfl
  | some tal =>
    by_cases hnt : nt = 0
    · subst hnt
      rfl
    by_cases halloc : (env.allocTask && env.allocDataReady && env.allocThreadReady &&
        env.allocThreadData) = false
    · rw [controlRun_allocFail nt tal env hnt halloc]
      simp only [waitsBoundedC, List.all_cons] at hcleanup ⊢
      simp [hcleanup]
    have ha : (env.allocTask && env.allocDataReady && env.allocThreadReady &&
        env.allocThreadData) = true := by
      revert halloc
      cases env.allocTask && env.allocDataReady && env.allocThreadReady &&
        env.allocThreadData <;> simp
    have hsetup : waitsBoundedC nt (setupGo env tal (List.range nt)).trace = true :=
      waitsBoundedC_of_no_waits nt _ (setupGo_no_waits env tal (List.range nt))
    have hdisp : waitsBoundedC nt (dispatchGo env nt MAX_ITERATIONS 1).2 = true :=
      dispatchGo_waits env nt MAX_ITERATIONS 1
    have hbc : waitsBoundedC nt (broadcastTrace nt) = true :=
      waitsBoundedC_of_no_waits nt _ (broadcastTrace_no_waits nt)
    by_cases hs : (setupGo env tal (List.range nt)).ok = false
    · rw [controlRun_setupFail nt tal env hnt ha hs]
      simp only [waitsBoundedC, List.all_append, List.all_cons] at hsetup hcleanup ⊢
      simp [hsetup, hcleanup]
    have hs' : (setupGo env tal (List.range nt)).ok = true := by
      revert hs
      cases (setupGo env tal (List.range nt)).ok <;> simp
    by_cases hd : (dispatchGo env nt MAX_ITERATIONS 1).1 = false
    · rw [controlRun_dispatchFail nt tal env hnt ha hs' hd]
      simp only [waitsBoundedC, List.all_append, List.all_cons] at hsetup hcleanup hdisp ⊢
      simp [hsetup, hcleanup, hdisp]
    have hd' : (dispatchGo env nt MAX_ITERATIONS 1).1 = true := by
      revert hd
      cases (dispatchGo env nt MAX_ITERATIONS 1).1 <;> simp
    by_cases hj : env.joinResult = 0
    · rw [controlRun_joinOk nt tal env hnt ha hs' hd' hj]
      simp only [waitsBoundedC, List.all_append, List.all_cons]
        at hsetup hcleanup hdisp hbc ⊢
      simp [hsetup, hcleanup, hdisp, hbc]
    · rw [controlRun_joinFail nt tal env hnt ha hs' hd' hj]
      simp only [waitsBoundedC, List.all_append, List.all_cons]
        at hsetup hcleanup hdisp hbc ⊢
      simp [hsetup, hcleanup, hdisp, hbc]

/-- C8: every blocking wait in the core carries the bounded timeout
`WAIT_TIME`: in any control-thread run every wait is an aggregate
`WaitForMultipleObjects` on the `num_threads` workers with timeout
`WAIT_TIME` (the ready wait and the final join-all wait), in any worker run
every wait is the worker's own data-ready wait with timeout `WAIT_TIME`, and
`WAIT_TIME` is the finite 15000 ms, not `INFINITE`. -/
theorem C8_every_wait_bounded :
    (∀ nt ta env, waitsBoundedC nt (controlRun nt ta env).2 = true) ∧
    (∀ rs, waitsBoundedW (workerRun rs).2 = true) ∧
    WAIT_TIME = 15000 ∧ WAIT_TIME ≠ INFINITE :=
  ⟨controlRun_waits, workerRun_waits, rfl, by decide⟩

/-- C2 counterexample: with one worker, a healthy setup and an aggregate wait
that fails at iteration 1, the dispatch loop aborts on error, yet the run's
trace contains no sentinel write and no join-all wait: the shutdown protocol
did not run before teardown, contradicting the claim. The worker thread is
instead forcibly terminated in teardown. -/
theorem C2_counterexample :
    (dispatchGo envDispatchFail 1 MAX_ITERATIONS 1).1 = false ∧
    (controlRun 1 (some [1]) envDispatchFail).1 = 1 ∧
    noZeroWrite (controlRun 1 (some [1]) envDispatchFail).2 = true ∧
    hasJoinWait (controlRun 1 (some [1]) envDispatchFail).2 = false ∧
    CAct.terminate 0 ∈ (controlRun 1 (some [1]) envDispatchFail).2 := by
  decide

/-- C2 amended: when the dispatch loop aborts on an error after a successful
setup, `ControlThread` jumps straight to teardown: the exit code is 1, no
worker slot is overwritten with the sentinel, no bounded join-all wait on the
workers happens, and instead every created worker thread is forcibly
terminated (`TerminateThread`) during teardown. The sentinel broadcast and
the drain wait run only when the dispatch loop ends normally or by
cancellation. -/
theorem C2_abort_skips_drain (nt : Nat) (tal : List Nat) (env : CEnv)
    (hnt : nt ≠ 0)
    (ha : (env.allocTask && env.allocDataReady && env.allocThreadReady &&
      env.allocThreadData) = true)
    (hcr : ∀ i ∈ List.range nt, env.createDataReady i = true ∧
      env.createThreadReady i = true ∧ env.createThread i = true)
    (hd : (dispatchGo env nt MAX_ITERATIONS 1).1 = false) :
    (controlRun nt (some tal) env).1 = 1 ∧
    noZeroWrite (controlRun nt (some tal) env).2 = true ∧
    hasJoinWait (controlRun nt (some tal) env).2 = false ∧
    (∀ w, w < nt → CAct.terminate w ∈ (controlRun nt (some tal) env).2) := by
  obtain ⟨hok, hdC, hrC, htC⟩ := setupGo_fields env tal (List.range nt) hcr
  have hpath := controlRun_dispatchFail nt tal env hnt ha hok hd
  rw [hpath]
  have hsetup : noZeroWrite (setupGo env tal (List.range nt)).trace = true :=
    (counts_zero_of_no_writes _ (setupGo_no_writes env tal (List.range nt))).2.1
  have hdispnz : noZeroWrite (dispatchGo env nt MAX_ITERATIONS 1).2 = true :=
    dispatchGo_noZeroWrite env nt MAX_ITERATIONS 1 (Nat.le_refl 1)
  have hcleanupz : noZeroWrite (cleanup nt (setupGo env tal (List.range nt)).dC
      (setupGo env tal (List.range nt)).rC (setupGo env tal (List.range nt)).tC) = true :=
    (counts_zero_of_no_writes _ (cleanup_no_writes nt _ _ _)).2.1
  refine ⟨rfl, ?_, ?_, ?_⟩
  · rw [noZeroWrite_append, noZeroWrite_append, noZeroWrite_cons, hsetup,
      hdispnz, hcleanupz]
    rfl
  · have hjs : hasJoinWait (setupGo env tal (List.range nt)).trace = false :=
      hasJoinWait_of_no_joins _ fun c t => setupGo_no_waits env tal (List.range nt) c t true
    have hjd : hasJoinWait (dispatchGo env nt MAX_ITERATIONS 1).2 = false :=
      dispatchGo_noJoin env nt MAX_ITERATIONS 1
    have hjc : hasJoinWait (cleanup nt (setupGo env tal (List.range nt)).dC
        (setupGo env tal (List.range nt)).rC (setupGo env tal (List.range nt)).tC) = false :=
      hasJoinWait_of_no_joins _ fun c t => cleanup_no_waits nt _ _ _ c t true
    rw [hasJoinWait_append, hasJoinWait_append]
    simp only [hasJoinWait, List.any_cons] at hjs hjd hjc ⊢
    simp [hjs, hjd, hjc, isJoinWait]
  · intro w hw
    have htw : (setupGo env tal (List.range nt)).tC w = true := by
      rw [htC w]
      have : w ∈ List.range nt := List.mem_range.mpr hw
      exact List.elem_eq_true_of_mem this
    have := cleanup_terminate_mem nt (setupGo env tal (List.range nt)).dC
      (setupGo env tal (List.range nt)).rC (setupGo env tal (List.range nt)).tC w hw htw
    exact List.mem_append_right _ this

/-- C2 amended-claim witness at the concrete failing environment. -/
theorem C2_abort_skips_drain_witness :
    (controlRun 1 (some [1]) envDispatchFail).1 = 1 ∧
    noZeroWrite (controlRun 1 (some [1]) envDispatchFail).2 = true ∧
    hasJoinWait (controlRun 1 (some [1]) envDispatchFail).2 = false ∧
    (∀ w, w < 1 → CAct.terminate w ∈ (controlRun 1 (some [1]) envDispatchFail).2) :=
  C2_abort_skips_drain 1 [1] envDispatchFail (by decide) (by decide)
    (by decide) (by decide)

theorem countNonZeroWrite_cons_of (a : CAct) (l : List CAct)
    (h : ∀ i v, a ≠ CAct.writeSlot i v) :
    countNonZeroWrite (a :: l) = countNonZeroWrite l := by
  rw [countNonZeroWrite, List.countP_cons, countNonZeroWrite]
  cases a <;> first | exact absurd rfl (h _ _) | simp

theorem countWriteVal_cons_of (v : Nat) (a : CAct) (l : List CAct)
    (h : ∀ i x, a ≠ CAct.writeSlot i x) :
    countWriteVal v (a :: l) = countWriteVal v l := by
  rw [countWriteVal, List.countP_cons, countWriteVal]
  cases a <;> first | exact absurd rfl (h _ _) | simp

theorem countZeroWriteTo_cons_of (w : Nat) (a : CAct) (l : List CAct)
    (h : ∀ i x, a ≠ CAct.writeSlot i x) :
    countZeroWriteTo w (a :: l) = countZeroWriteTo w l := by
  rw [countZeroWriteTo, List.countP_cons, countZeroWriteTo]
  cases a <;> first | exact absurd rfl (h _ _) | simp

/-- C9: in a failure-free run of `k ≤ MAX_ITERATIONS` dispatch rounds
(cancellation observed right after round `k`, or `k = MAX_ITERATIONS`), the
control thread succeeds, exactly `k` non-sentinel work values are delivered
in total, each value `1 .. k` is written to exactly one worker's slot, and
the trace splits into a sentinel-free prefix followed by a suffix containing
no non-sentinel write in which every worker receives exactly one sentinel
before the control thread returns. -/
theorem C9_clean_run_accounting (nt : Nat) (tal : List Nat) (env : CEnv) (k : Nat)
    (hnt : nt ≠ 0)
    (ha : (env.allocTask && env.allocDataReady && env.allocThreadReady &&
      env.allocThreadData) = true)
    (hcr : ∀ i ∈ List.range nt, env.createDataReady i = true ∧
      env.createThreadReady i = true ∧ env.createThread i = true)
    (hk : k ≤ MAX_ITERATIONS)
    (hgood : ∀ j, 1 ≤ j → j ≤ k → env.cancel j = false ∧ env.waitResult j < nt ∧
      env.setDataEvent j = true)
    (hstop : k < MAX_ITERATIONS → env.cancel (k + 1) = true)
    (hjoin : env.joinResult = 0) :
    (controlRun nt (some tal) env).1 = 0 ∧
    countNonZeroWrite (controlRun nt (some tal) env).2 = k ∧
    (∀ v, 1 ≤ v → v ≤ k → countWriteVal v (controlRun nt (some tal) env).2 = 1) ∧
    ∃ t1 t2, (controlRun nt (some tal) env).2 = t1 ++ t2 ∧
      noZeroWrite t1 = true ∧ countNonZeroWrite t2 = 0 ∧
      (∀ w, w < nt → countZeroWriteTo w t2 = 1) := by
  obtain ⟨hok, hdC, hrC, htC⟩ := setupGo_fields env tal (List.range nt) hcr
  have heq := dispatchGo_clean env nt k hk MAX_ITERATIONS 1
    (by omega) (Nat.le_refl 1) (by omega) hgood hstop
  have hkk : k + 1 - 1 = k := by omega
  rw [hkk] at heq
  have hd' : (dispatchGo env nt MAX_ITERATIONS 1).1 = true := by rw [heq]
  have htr : (dispatchGo env nt MAX_ITERATIONS 1).2 = dispatchBlocks env nt 1 k := by
    rw [heq]
  have hpath := controlRun_joinOk nt tal env hnt ha hok hd' hjoin
  have hnw : ∀ i v, CAct.log CTag.creating ≠ CAct.writeSlot i v := fun i v h => by
    simp at h
  have hnw2 : ∀ i v, CAct.sleepMs 250 ≠ CAct.writeSlot i v := fun i v h => by
    simp at h
  have hnw3 : ∀ i v, CAct.waitMulti nt WAIT_TIME true ≠ CAct.writeSlot i v :=
    fun i v h => by simp at h
  have hsz := counts_zero_of_no_writes _ (setupGo_no_writes env tal (List.range nt))
  have hcz := counts_zero_of_no_writes _
    (cleanup_no_writes nt (setupGo env tal (List.range nt)).dC
      (setupGo env tal (List.range nt)).rC (fun _ => false))
  refine ⟨by rw [hpath], ?_, ?_, ?_⟩
  · rw [hpath, htr]
    rw [countNonZeroWrite_append, countNonZeroWrite_append, countNonZeroWrite_append,
      countNonZeroWrite_cons_of _ _ hnw, countNonZeroWrite_cons_of _ _ hnw2,
      countNonZeroWrite_append, countNonZeroWrite_cons_of _ _ hnw3,
      hsz.2.2.1, hcz.2.2.1, broadcast_countNonZero,
      dispatchBlocks_countNonZero env nt k 1 (Nat.le_refl 1)]
    simp [countNonZeroWrite]
  · intro v hv1 hvk
    rw [hpath, htr]
    rw [countWriteVal_append, countWriteVal_append, countWriteVal_append,
      countWriteVal_cons_of _ _ _ hnw, countWriteVal_cons_of _ _ _ hnw2,
      countWriteVal_append, countWriteVal_cons_of _ _ _ hnw3,
      hsz.2.2.2.1 v, hcz.2.2.2.1 v, broadcast_countVal nt v hv1,
      dispatchBlocks_countVal env nt k 1 v]
    rw [if_pos (by omega)]
    simp [countWriteVal]
  · refine ⟨(CAct.log CTag.creating :: (setupGo env tal (List.range nt)).trace) ++
      dispatchBlocks env nt 1 k ++ [CAct.sleepMs 250],
      broadcastTrace nt ++ ([CAct.waitMulti nt WAIT_TIME true] ++
        cleanup nt (setupGo env tal (List.range nt)).dC
          (setupGo env tal (List.range nt)).rC (fun _ => false)), ?_, ?_, ?_, ?_⟩
    · rw [hpath, htr]
      simp [List.append_assoc]
    · rw [noZeroWrite_append, noZeroWrite_append, noZeroWrite_cons, hsz.2.1,
        dispatchBlocks_noZeroWrite env nt k 1 (Nat.le_refl 1)]
      simp [noZeroWrite, isZeroWrite]
    · rw [countNonZeroWrite_append, countNonZeroWrite_append,
        countNonZeroWrite_cons_of _ _ hnw3, hcz.2.2.1, broadcast_countNonZero]
      simp [countNonZeroWrite]
    · intro w hw
      rw [countZeroWriteTo_append, countZeroWriteTo_append,
        countZeroWriteTo_cons_of _ _ _ hnw3, hcz.2.2.2.2 w, broadcast_countZeroTo w nt,
        if_pos hw]
      simp [countZeroWriteTo]

/-- C9 witness: a clean single-round run with one worker. -/
theorem C9_clean_run_accounting_witness :
    (controlRun 1 (some [1]) envCleanRun).1 = 0 ∧
    countNonZeroWrite (controlRun 1 (some [1]) envCleanRun).2 = 1 ∧
    (∀ v, 1 ≤ v → v ≤ 1 → countWriteVal v (controlRun 1 (some [1]) envCleanRun).2 = 1) ∧
    ∃ t1 t2, (controlRun 1 (some [1]) envCleanRun).2 = t1 ++ t2 ∧
      noZeroWrite t1 = true ∧ countNonZeroWrite t2 = 0 ∧
      (∀ w, w < 1 → countZeroWriteTo w t2 = 1) :=
  C9_clean_run_accounting 1 [1] envCleanRun 1 (by decide) (by decide) (by decide)
    (by decide)
    (fun j hj1 hj2 => by
      have hj : j = 1 := by omega
      subst hj
      exact ⟨rfl, by decide, rfl⟩)
    (fun _ => rfl) rfl

/-! ### The process entry point (`main_utf8`, source lines 251-283) -/

/-- Model of `main_utf8`: runs the planner, creates the control thread, and
waits on it with `INFINITE` timeout. The exit code is decided only by
planner success, thread-creation success, and that wait's success; the
control thread's own exit code is computed (second component) but never read
by `main_utf8`. -/
def mainRun (getAff : Option Nat) (spare : Nat) (affAllocOk : Bool)
    (ctlCreateOk : Bool) (ctlWaitOk : Bool) (env : CEnv) :
    Nat × Option (Nat × List CAct) :=
  let pr := SetThreadAffinity getAff spare affAllocOk
  if pr.ok = false then (1, none)
  else if ctlCreateOk = false then (1, none)
  else
    let ctl := controlRun pr.num_threads pr.thread_affinity env
    if ctlWaitOk = false then (1, some ctl) else (0, some ctl)

/-- C3 counterexample: a run whose control thread aborts on a dispatch error
(its exit code is 1) still makes the process exit with code 0, because
`main_utf8` never reads the control thread's exit code; the claim that the
exit code is 1 on any failure path, including a dispatch error, is false. -/
theorem C3_counterexample :
    (mainRun (some 1) 0 true true true envDispatchFail).1 = 0 ∧
    ((mainRun (some 1) 0 true true true envDispatchFail).2.map Prod.fst) = some 1 := by
  decide

/-- C3 amended: the process exit code is 0 exactly when the planner
succeeded, the control thread was created, and the `INFINITE` wait on it
succeeded; the control thread's own result is never consulted, so the exit
code is independent of everything that happens inside the control loop. -/
theorem C3_exit_code_ignores_control (getAff : Option Nat) (spare : Nat)
    (affAllocOk ctlCreateOk ctlWaitOk : Bool) (env env2 : CEnv) :
    ((mainRun getAff spare affAllocOk ctlCreateOk ctlWaitOk env).1 = 0 ↔
      (SetThreadAffinity getAff spare affAllocOk).ok = true ∧
      ctlCreateOk = true ∧ ctlWaitOk = true) ∧
    (mainRun getAff spare affAllocOk ctlCreateOk ctlWaitOk env).1 =
      (mainRun getAff spare affAllocOk ctlCreateOk ctlWaitOk env2).1 := by
  cases hok : (SetThreadAffinity getAff spare affAllocOk).ok <;>
    cases ctlCreateOk <;> cases ctlWaitOk <;>
      simp [mainRun, hok]

/-- C7: the claim that teardown never accesses an array that was not
successfully allocated is false of the code, and the code is in the wrong:
when the `calloc` for `data_ready` fails while `task_thread` was allocated,
the path `goto out` still runs the cleanup loop, which dereferences the NULL
`data_ready` array (`data_ready[i]` at source line 224) — undefined
behavior. The run otherwise exits with code 1. -/
theorem C7_cleanup_reads_unallocated_array :
    (controlRun 1 (some [1]) envAllocFail).1 = 1 ∧
    ubAccess envAllocFail (controlRun 1 (some [1]) envAllocFail).2 = true ∧
    CAct.readArr ArrName.dataReady 0 ∈ (controlRun 1 (some [1]) envAllocFail).2 := by
  decide
